import Mathlib

/-!
Verification development for the financial-document-analyzer web application.

The development shallowly embeds the data-handling core of the application:

* a `Json` value model for everything that flows through `JSON.parse` /
  `JSON.stringify`, together with models of the JavaScript coercions the
  code relies on (`String(x)`, `parseInt(x, 10)`, truthiness, `||`, `??`,
  property access);
* the page-range selector `parsePageRangeString` from
  `src/services/pdfParser.ts`, modelled character by character
  (machine strings become `List Char`);
* the provider response normalizers from `src/services/ollamaService.ts`
  (Ollama and Gemini variants) and from the Azure service file
  (`src/unnamed/part_001`), including `stripCodeFence` and
  `parseJsonArrayOrThrow`;
* the prompt assembly and its two-level truncation (per page at 15000
  characters, overall at 100000 characters) shared by the three
  `analyzeDocument` variants;
* the JSON upload reconciler `handleJsonFileSelectedForUpload` and the
  export envelopes `downloadJson` / `downloadChartJson` from
  `src/components/DataDisplay.tsx`;
* the data-source registry state of the `App` component in
  `src/unnamed/part_000` (add / select / remove-active plus the
  `useEffect` that maintains the active pointer), and, for comparison,
  the older `src/App.tsx` variant of the same logic.

Modelling conventions: JavaScript strings become `List Char` (one entry
per code point); JSON numbers are modelled as integers (`Int`), which is
faithful for every discriminating field the claims touch (years, pages,
counts); fallible code returns `Except`; the asynchronous React state
updates are modelled as the synchronous state transition they perform
followed by the relevant `useEffect` body, which is how the single
threaded scheduler runs them.
-/

/-! ## JSON value model and JavaScript coercions -/

/-- A parsed JSON value, as produced by `JSON.parse`.  Numbers are modelled
as integers; every field the claims inspect (years, pages, ids) is integral
in the source data. -/
inductive Json where
  | null
  | bool (b : Bool)
  | num (n : Int)
  | str (s : String)
  | arr (elems : List Json)
  | obj (fields : List (String × Json))

mutual

def Json.decEq : (a b : Json) → Decidable (a = b)
  | .null, .null => isTrue rfl
  | .bool a, .bool b =>
    if h : a = b then isTrue (by rw [h]) else isFalse (fun hh => h (Json.bool.inj hh))
  | .num a, .num b =>
    if h : a = b then isTrue (by rw [h]) else isFalse (fun hh => h (Json.num.inj hh))
  | .str a, .str b =>
    if h : a = b then isTrue (by rw [h]) else isFalse (fun hh => h (Json.str.inj hh))
  | .arr a, .arr b =>
    match Json.decEqList a b with
    | isTrue h => isTrue (by rw [h])
    | isFalse h => isFalse (fun hh => h (Json.arr.inj hh))
  | .obj a, .obj b =>
    match Json.decEqFields a b with
    | isTrue h => isTrue (by rw [h])
    | isFalse h => isFalse (fun hh => h (Json.obj.inj hh))
  | .null, .bool _ => isFalse (by intro h; exact Json.noConfusion h)
  | .null, .num _ => isFalse (by intro h; exact Json.noConfusion h)
  | .null, .str _ => isFalse (by intro h; exact Json.noConfusion h)
  | .null, .arr _ => isFalse (by intro h; exact Json.noConfusion h)
  | .null, .obj _ => isFalse (by intro h; exact Json.noConfusion h)
  | .bool _, .null => isFalse (by intro h; exact Json.noConfusion h)
  | .bool _, .num _ => isFalse (by intro h; exact Json.noConfusion h)
  | .bool _, .str _ => isFalse (by intro h; exact Json.noConfusion h)
  | .bool _, .arr _ => isFalse (by intro h; exact Json.noConfusion h)
  | .bool _, .obj _ => isFalse (by intro h; exact Json.noConfusion h)
  | .num _, .null => isFalse (by intro h; exact Json.noConfusion h)
  | .num _, .bool _ => isFalse (by intro h; exact Json.noConfusion h)
  | .num _, .str _ => isFalse (by intro h; exact Json.noConfusion h)
  | .num _, .arr _ => isFalse (by intro h; exact Json.noConfusion h)
  | .num _, .obj _ => isFalse (by intro h; exact Json.noConfusion h)
  | .str _, .null => isFalse (by intro h; exact Json.noConfusion h)
  | .str _, .bool _ => isFalse (by intro h; exact Json.noConfusion h)
  | .str _, .num _ => isFalse (by intro h; exact Json.noConfusion h)
  | .str _, .arr _ => isFalse (by intro h; exact Json.noConfusion h)
  | .str _, .obj _ => isFalse (by intro h; exact Json.noConfusion h)
  | .arr _, .null => isFalse (by intro h; exact Json.noConfusion h)
  | .arr _, .bool _ => isFalse (by intro h; exact Json.noConfusion h)
  | .arr _, .num _ => isFalse (by intro h; exact Json.noConfusion h)
  | .arr _, .str _ => isFalse (by intro h; exact Json.noConfusion h)
  | .arr _, .obj _ => isFalse (by intro h; exact Json.noConfusion h)
  | .obj _, .null => isFalse (by intro h; exact Json.noConfusion h)
  | .obj _, .bool _ => isFalse (by intro h; exact Json.noConfusion h)
  | .obj _, .num _ => isFalse (by intro h; exact Json.noConfusion h)
  | .obj _, .str _ => isFalse (by intro h; exact Json.noConfusion h)
  | .obj _, .arr _ => isFalse (by intro h; exact Json.noConfusion h)

def Json.decEqList : (a b : List Json) → Decidable (a = b)
  | [], [] => isTrue rfl
  | [], _ :: _ => isFalse (by intro h; exact List.noConfusion h)
  | _ :: _, [] => isFalse (by intro h; exact List.noConfusion h)
  | x :: xs, y :: ys =>
    match Json.decEq x y, Json.decEqList xs ys with
    | isTrue h1, isTrue h2 => isTrue (by rw [h1, h2])
    | isFalse h1, _ => isFalse (fun hh => h1 (List.cons.inj hh).1)
    | _, isFalse h2 => isFalse (fun hh => h2 (List.cons.inj hh).2)

def Json.decEqFields : (a b : List (String × Json)) → Decidable (a = b)
  | [], [] => isTrue rfl
  | [], _ :: _ => isFalse (by intro h; exact List.noConfusion h)
  | _ :: _, [] => isFalse (by intro h; exact List.noConfusion h)
  | (k1, v1) :: xs, (k2, v2) :: ys =>
    match Json.decEq v1 v2, Json.decEqFields xs ys with
    | isTrue h1, isTrue h2 =>
      if h0 : k1 = k2 then isTrue (by rw [h0, h1, h2])
      else isFalse (fun hh => h0 (congrArg Prod.fst (List.cons.inj hh).1))
    | isFalse h1, _ => isFalse (fun hh => h1 (congrArg Prod.snd (List.cons.inj hh).1))
    | _, isFalse h2 => isFalse (fun hh => h2 (List.cons.inj hh).2)

end

instance : DecidableEq Json := Json.decEq

/-- JavaScript property access `item.k` on a parsed JSON value: a `some`
result is the property value, `none` is `undefined`.  Only objects carry
(string-keyed) own properties; the keys the application probes (`value`,
`year`, `title`, `coordinates`, `name`, ...) are never own properties of
arrays or primitive wrappers. -/
def jsGetField (j : Json) (k : String) : Option Json :=
  match j with
  | .obj fields => fields.lookup k
  | _ => none

/-- JavaScript truthiness of a parsed JSON value (`NaN` cannot occur in
parsed JSON). -/
def jsTruthy : Json → Bool
  | .null => false
  | .bool b => b
  | .num n => n != 0
  | .str s => s != ""
  | .arr _ => true
  | .obj _ => true

/-- The JavaScript expression `x || d` for a possibly-undefined `x`. -/
def jsOrDefault (x : Option Json) (d : Json) : Json :=
  match x with
  | none => d
  | some v => if jsTruthy v then v else d

/-- The JavaScript expression `x !== undefined ? x : d`. -/
def jsIfDefined (x : Option Json) (d : Json) : Json :=
  match x with
  | none => d
  | some v => v

/-- The JavaScript expression `x ?? d` (nullish coalescing). -/
def jsNullish (x : Option Json) (d : Json) : Json :=
  match x with
  | none => d
  | some .null => d
  | some v => v

mutual

/-- JavaScript `String(x)` on a parsed JSON value: arrays join their
elements with commas (with `null` elements rendered empty), objects render
as `[object Object]`. -/
def jsToString : Json → String
  | .null => "null"
  | .bool true => "true"
  | .bool false => "false"
  | .num n => toString n
  | .str s => s
  | .arr xs => jsToStringArrayElems xs
  | .obj _ => "[object Object]"

def jsToStringArrayElems : List Json → String
  | [] => ""
  | [x] => jsToStringArrayElem x
  | x :: xs => jsToStringArrayElem x ++ "," ++ jsToStringArrayElems xs

def jsToStringArrayElem : Json → String
  | .null => ""
  | v => jsToString v

end

/-- JavaScript `String(x)` where `x` may be `undefined` (`none`). -/
def jsToStringU (x : Option Json) : String :=
  match x with
  | none => "undefined"
  | some v => jsToString v

/-! ## Character-level string helpers (JavaScript semantics)

Machine strings are embedded as `List Char`.  `jsTrim`, `jsSplitOn` and
`jsParseInt` model `String.prototype.trim`, `String.prototype.split` with
a one-character separator, and `parseInt(x, 10)` (`none` is `NaN`). -/

/-- Whitespace as recognised by `trim` / `parseInt` (the code points the
application can actually meet). -/
def isWsChar (c : Char) : Bool :=
  c == ' ' || c == '\t' || c == '\n' || c == '\r' || c == '\x0b' || c == '\x0c'

/-- JavaScript `s.trim()`. -/
def jsTrim (l : List Char) : List Char :=
  ((l.dropWhile isWsChar).reverse.dropWhile isWsChar).reverse

/-- JavaScript `s.split(sep)` for a single-character separator: splitting
the empty string yields one empty part, and separators are not kept. -/
def jsSplitOn (sep : Char) : List Char → List (List Char)
  | [] => [[]]
  | c :: cs =>
    match jsSplitOn sep cs with
    | [] => [[]]
    | p :: ps => if c == sep then [] :: p :: ps else (c :: p) :: ps

/-- Numeric value of a digit string (most significant digit first). -/
def digitsVal (ds : List Char) : Nat :=
  ds.foldl (fun a c => 10 * a + (c.toNat - '0'.toNat)) 0

/-- JavaScript `parseInt(s, 10)`: skip leading whitespace, consume an
optional sign and then the longest digit run, ignoring any trailing
characters; `none` models `NaN` (no digits found). -/
def jsParseInt (l : List Char) : Option Int :=
  let body := l.dropWhile isWsChar
  let core : Int → List Char → Option Int := fun sign cs =>
    let ds := cs.takeWhile Char.isDigit
    if ds.isEmpty then none else some (sign * (digitsVal ds : Int))
  match body with
  | [] => none
  | c :: cs =>
    if c = '-' then core (-1) cs
    else if c = '+' then core 1 cs
    else core 1 (c :: cs)

/-- JavaScript `parseInt(s, 10)` on a machine string. -/
def jsParseIntStr (s : String) : Option Int :=
  jsParseInt s.toList

/-! ## Data-source registry (`src/unnamed/part_000` App component)

The registry state is `dataSources` (insertion-ordered, keyed by `id`) and
`activeDataSourceId`.  Entries are represented by their ids: no pointer
logic in the component reads any other field.  Each user-level operation is
the synchronous state update its handler performs, followed by the
component's `useEffect` body (which the scheduler runs before the next
operation can be issued). -/

/-- Registry state: the ids of `dataSources` in insertion order plus
`activeDataSourceId`. -/
structure RegistryState where
  sources : List Nat
  active : Option Nat
deriving DecidableEq, Repr

/-- A user-level registry operation: uploading/extracting a new source
(`add`, the handlers append it and make it active), picking a source in the
selector (`select`), or pressing the remove button
(`removeActive` = `handleRemoveActiveDataSource`). -/
inductive RegOp where
  | add (id : Nat)
  | select (id : Nat)
  | removeActive
deriving DecidableEq, Repr

/-- The synchronous state update performed by the `part_000` handlers:
`add` appends and activates, `select` sets the pointer, and
`handleRemoveActiveDataSource` returns early on a null pointer and
otherwise only filters `dataSources` — it does not touch
`activeDataSourceId`. -/
def applyRegOp (st : RegistryState) : RegOp → RegistryState
  | .add i => ⟨st.sources ++ [i], some i⟩
  | .select i => ⟨st.sources, some i⟩
  | .removeActive =>
    match st.active with
    | none => st
    | some a => ⟨st.sources.filter (fun s => s ≠ a), st.active⟩

/-- The `useEffect` of the `part_000` App (its lines 93–99): when sources
exist and the pointer is null, point at the last source; when no sources
exist, clear the pointer; otherwise leave the state alone. -/
def registryEffectP000 (st : RegistryState) : RegistryState :=
  if st.sources ≠ [] ∧ st.active = none then
    ⟨st.sources, some (st.sources.getLast?.getD 0)⟩
  else if st.sources = [] then ⟨[], none⟩
  else st

/-- One registry operation in the `part_000` App: handler update followed
by the effect. -/
def registryStepP000 (st : RegistryState) (op : RegOp) : RegistryState :=
  registryEffectP000 (applyRegOp st op)

/-- Run a sequence of registry operations from the initial (empty) state of
the `part_000` App. -/
def runRegistryP000 (ops : List RegOp) : RegistryState :=
  ops.foldl registryStepP000 ⟨[], none⟩

/-- The claimed invariant: the active pointer is `none` or points at a
source present in the registry. -/
def activePointerOk (st : RegistryState) : Bool :=
  match st.active with
  | none => true
  | some a => st.sources.contains a

/-- The synchronous state update of `handleRemoveActiveDataSource` in the
older `src/App.tsx` variant: it filters the sources and immediately
reassigns the pointer to the last remaining source (or clears it). -/
def applyRegOpAppTsx (st : RegistryState) : RegOp → RegistryState
  | .add i => ⟨st.sources ++ [i], some i⟩
  | .select i => ⟨st.sources, some i⟩
  | .removeActive =>
    match st.active with
    | none => st
    | some a =>
      if st.sources.contains a then
        let remaining := st.sources.filter (fun s => s ≠ a)
        ⟨remaining, remaining.getLast?⟩
      else st

/-- The `useEffect` of `src/App.tsx` (its lines 82–100): a dangling pointer
is repaired to the last source, a null pointer over a non-empty registry is
pointed at the last source. -/
def registryEffectAppTsx (st : RegistryState) : RegistryState :=
  match st.active with
  | some a =>
    if st.sources.contains a then st
    else ⟨st.sources, st.sources.getLast?⟩
  | none =>
    if st.sources ≠ [] then ⟨st.sources, some (st.sources.getLast?.getD 0)⟩
    else st

/-- One registry operation in the `src/App.tsx` variant. -/
def registryStepAppTsx (st : RegistryState) (op : RegOp) : RegistryState :=
  registryEffectAppTsx (applyRegOpAppTsx st op)

/-- Run a sequence of registry operations in the `src/App.tsx` variant. -/
def runRegistryAppTsx (ops : List RegOp) : RegistryState :=
  ops.foldl registryStepAppTsx ⟨[], none⟩

/-! ## JSON import reconciler and export envelopes

`handleJsonFileSelectedForUpload` (`src/unnamed/part_000`, lines 124–189)
classifies a parsed upload; `downloadJson` / `downloadChartJson`
(`src/components/DataDisplay.tsx`) build the canonical export envelope.
A produced `QuerySource` always has `type: 'json'` and a fresh `uuidv4()`
id, so a classification result is determined by its name, its declared
`dataType` and its adopted `data`. -/

/-- The outcome of a successful JSON upload: the new source's display
name, its content discriminator (`"numerical"` or `"chart"`) and its
adopted data array.  The fresh id and the constant `type: 'json'` tag are
omitted. -/
structure ImportedSource where
  name : String
  dataType : String
  data : List Json
deriving DecidableEq

/-- JavaScript `k in firstItem` guarded by
`firstItem && typeof firstItem === 'object'`, as the reconciler uses it:
true exactly when the value is an object with the key among its own
properties. -/
def jsHasKey (j : Json) (k : String) : Bool :=
  (jsGetField j k).isSome

/-- Error message of the reconciler for a JSON value that is neither a
canonical envelope nor a bare array. -/
def msgInvalidImportFormat : String :=
  "Invalid JSON format. Expected an object with \x27name\x27, \x27dataType\x27, and \x27data\x27 properties, or a direct array of data items."

/-- Error message of the reconciler for a bare array whose first element
matches neither legacy heuristic. -/
def msgUnrecognizedArray : String :=
  "The uploaded array does not contain recognizable data items (expected keys like \x27value\x27 and \x27year\x27 for numerical data, or \x27title\x27 and \x27coordinates\x27 for chart data)."

/-- The classification logic of `handleJsonFileSelectedForUpload`: first
the canonical envelope (a non-array object with string `name`, `dataType`
in {`numerical`, `chart`} and array `data`), then the bare-array cases
(empty array; first element with `value` and `year`; first element with
`title` and `coordinates`), and otherwise the format errors the handler
throws. -/
def classifyImport (parsed : Json) (fileName : String) : Except String ImportedSource :=
  match parsed with
  | .obj _ =>
    match jsGetField parsed "name", jsGetField parsed "dataType", jsGetField parsed "data" with
    | some (.str n), some (.str "numerical"), some (.arr d) => .ok ⟨n, "numerical", d⟩
    | some (.str n), some (.str "chart"), some (.arr d) => .ok ⟨n, "chart", d⟩
    | _, _, _ => .error msgInvalidImportFormat
  | .arr [] => .ok ⟨fileName, "numerical", []⟩
  | .arr (first :: rest) =>
    if jsHasKey first "value" && jsHasKey first "year" then
      .ok ⟨fileName, "numerical", first :: rest⟩
    else if jsHasKey first "title" && jsHasKey first "coordinates" then
      .ok ⟨fileName ++ " (Charts)", "chart", first :: rest⟩
    else .error msgUnrecognizedArray
  | _ => .error msgInvalidImportFormat

/-- The per-item projection `({ id, ...rest }) => rest` used by the chart
export: remove the `id` own property, keep everything else in order. -/
def stripIdField (j : Json) : Json :=
  match j with
  | .obj fields => .obj (fields.filter (fun kv => kv.1 ≠ "id"))
  | v => v

/-- The envelope built by `downloadJson` for a numerical source: the data
array is embedded unchanged. -/
def downloadJsonEnvelope (sourceName : String) (data : List Json) : Json :=
  .obj [("name", .str sourceName), ("dataType", .str "numerical"), ("data", .arr data)]

/-- The envelope built by `downloadChartJson` for a chart source: every
item loses its `id` property. -/
def downloadChartJsonEnvelope (sourceName : String) (data : List Json) : Json :=
  .obj [("name", .str sourceName), ("dataType", .str "chart"),
        ("data", .arr (data.map stripIdField))]


/-! ## Provider response normalizers

`analyzeDocument` maps every element of the parsed provider array into the
canonical record shape.  The Gemini variant (`src/services/ollamaService.ts`,
lines 270–286) and the Azure variant (`src/unnamed/part_001`, lines 66–81)
use `||` / `!== undefined` defaults and access properties directly (which
throws on a `null` element); the Ollama variant (lines 95–110) uses
optional chaining and `??`.  Every output field is kept as a `Json` value,
since a JavaScript object field can hold anything. -/

/-- The canonical record produced for one array element.  All fields are
JSON values exactly as the JavaScript object holds them. -/
structure NormalizedRecord where
  name : Json
  subcategory : Json
  value : Json
  unit : Json
  period : Json
  year : Json
  page : Json
  source : Json
  file : Json
  bankName : Json
  documentType : Json
deriving DecidableEq

/-- The integer the normalizers put in `year`:
`parseInt(String(item.year), 10)` with fallback 0 (`!isNaN(year) ? year : 0`
in the Gemini/Azure variants, `Number.isFinite(year) ? year : 0` in the
Ollama variant — identical on `parseInt` output). -/
def normalizedYear (rawYear : Option Json) : Int :=
  (jsParseIntStr (jsToStringU rawYear)).getD 0

/-- The Gemini-variant per-element coercion.  Direct property access on a
`null` element throws a `TypeError`; otherwise each field falls back with
`||` (or `!== undefined ?:` for `value` and `page`). -/
def geminiNormalizeItem (item : Json) (fileName : String) : Except String NormalizedRecord :=
  match item with
  | .null => .error "TypeError: cannot read properties of null"
  | _ =>
    .ok
      { name := jsOrDefault (jsGetField item "name") (.str "N/A")
        subcategory := jsOrDefault (jsGetField item "subcategory") (.str "")
        value := jsIfDefined (jsGetField item "value") (.str "N/A")
        unit := jsOrDefault (jsGetField item "unit") (.str "")
        period := jsOrDefault (jsGetField item "period") (.str "N/A")
        year := .num (normalizedYear (jsGetField item "year"))
        page := jsIfDefined (jsGetField item "page") (.num 0)
        source := jsOrDefault (jsGetField item "source") (.str "N/A")
        file := jsOrDefault (jsGetField item "file") (.str fileName)
        bankName := jsOrDefault (jsGetField item "bankName") (.str "")
        documentType := jsOrDefault (jsGetField item "documentType") (.str "") }

/-- The Azure-variant per-element coercion (`src/unnamed/part_001`); its
body is the same `||` / `!== undefined` logic as the Gemini variant. -/
def azureNormalizeItem (item : Json) (fileName : String) : Except String NormalizedRecord :=
  match item with
  | .null => .error "TypeError: cannot read properties of null"
  | _ =>
    .ok
      { name := jsOrDefault (jsGetField item "name") (.str "N/A")
        subcategory := jsOrDefault (jsGetField item "subcategory") (.str "")
        value := jsIfDefined (jsGetField item "value") (.str "N/A")
        unit := jsOrDefault (jsGetField item "unit") (.str "")
        period := jsOrDefault (jsGetField item "period") (.str "N/A")
        year := .num (normalizedYear (jsGetField item "year"))
        page := jsIfDefined (jsGetField item "page") (.num 0)
        source := jsOrDefault (jsGetField item "source") (.str "N/A")
        file := jsOrDefault (jsGetField item "file") (.str fileName)
        bankName := jsOrDefault (jsGetField item "bankName") (.str "")
        documentType := jsOrDefault (jsGetField item "documentType") (.str "") }

/-- The Ollama-variant per-element coercion: optional chaining plus `??`
defaults, total on every JSON value (including `null`). -/
def ollamaNormalizeItem (item : Json) (fileName : String) : NormalizedRecord :=
  { name := jsNullish (jsGetField item "name") (.str "N/A")
    subcategory := jsNullish (jsGetField item "subcategory") (.str "")
    value := jsNullish (jsGetField item "value") (.str "N/A")
    unit := jsNullish (jsGetField item "unit") (.str "")
    period := jsNullish (jsGetField item "period") (.str "N/A")
    year := .num (normalizedYear (jsGetField item "year"))
    page := jsNullish (jsGetField item "page") (.num 0)
    source := jsNullish (jsGetField item "source") (.str "N/A")
    file := jsNullish (jsGetField item "file") (.str fileName)
    bankName := jsNullish (jsGetField item "bankName") (.str "")
    documentType := jsNullish (jsGetField item "documentType") (.str "") }

/-- A possibly-undefined field value on which `x || d`,
`x !== undefined ? x : d` and `x ?? d` all agree: it is absent or truthy. -/
def tameLookup (x : Option Json) : Bool :=
  match x with
  | none => true
  | some v => jsTruthy v

/-- An array element on which the three normalizer variants agree: not
`null` (the Gemini/Azure variants would throw) and with every normalized
field absent or truthy. -/
def tameItem (item : Json) : Bool :=
  item ≠ Json.null &&
  tameLookup (jsGetField item "name") &&
  tameLookup (jsGetField item "subcategory") &&
  tameLookup (jsGetField item "value") &&
  tameLookup (jsGetField item "unit") &&
  tameLookup (jsGetField item "period") &&
  tameLookup (jsGetField item "page") &&
  tameLookup (jsGetField item "source") &&
  tameLookup (jsGetField item "file") &&
  tameLookup (jsGetField item "bankName") &&
  tameLookup (jsGetField item "documentType")

theorem jsOrDefault_eq_nullish_of_tame (x : Option Json) (d : Json)
    (h : tameLookup x = true) : jsOrDefault x d = jsNullish x d := by
  cases x with
  | none => rfl
  | some v =>
    simp only [tameLookup] at h
    cases v <;> simp_all [jsOrDefault, jsNullish, jsTruthy]

theorem jsIfDefined_eq_nullish_of_tame (x : Option Json) (d : Json)
    (h : tameLookup x = true) : jsIfDefined x d = jsNullish x d := by
  cases x with
  | none => rfl
  | some v =>
    simp only [tameLookup] at h
    cases v <;> simp_all [jsIfDefined, jsNullish, jsTruthy]

def Except.decEq {ε α : Type} [DecidableEq ε] [DecidableEq α] :
    (a b : Except ε α) → Decidable (a = b)
  | .ok a, .ok b =>
    if h : a = b then isTrue (by rw [h]) else isFalse (fun hh => h (Except.ok.inj hh))
  | .error a, .error b =>
    if h : a = b then isTrue (by rw [h]) else isFalse (fun hh => h (Except.error.inj hh))
  | .ok _, .error _ => isFalse (fun hh => Except.noConfusion hh)
  | .error _, .ok _ => isFalse (fun hh => Except.noConfusion hh)

instance {ε α : Type} [DecidableEq ε] [DecidableEq α] : DecidableEq (Except ε α) :=
  Except.decEq

/-- A JSON value that is a number. -/
def Json.isNum : Json → Bool
  | .num _ => true
  | _ => false

/-! ## Registry lemmas -/

theorem contains_getLastD (sources : List Nat) (h : sources ≠ []) :
    sources.contains (sources.getLast?.getD 0) = true := by
  rw [List.getLast?_eq_getLast_of_ne_nil h]
  simp only [Option.getD_some]
  exact List.elem_iff.mpr (List.getLast_mem h)

theorem activePointerOk_getLast (sources : List Nat) :
    activePointerOk ⟨sources, sources.getLast?⟩ = true := by
  match hlast : sources.getLast? with
  | none => rfl
  | some x =>
    simp only [activePointerOk]
    exact List.elem_iff.mpr (List.mem_of_mem_getLast? (by simp [hlast]))

theorem registryEffectAppTsx_ok (st : RegistryState) :
    activePointerOk (registryEffectAppTsx st) = true := by
  rcases st with ⟨sources, active⟩
  cases active with
  | none =>
    by_cases h : sources = []
    · subst h; rfl
    · simp only [registryEffectAppTsx, h, ne_eq, not_false_eq_true, if_pos, activePointerOk]
      exact contains_getLastD sources h
  | some a =>
    by_cases h : sources.contains a
    · simp only [registryEffectAppTsx, h, if_pos, activePointerOk]
    · simp only [registryEffectAppTsx, h, Bool.false_eq_true, if_neg, not_false_eq_true]
      exact activePointerOk_getLast sources

theorem registryStepAppTsx_ok (st : RegistryState) (op : RegOp) :
    activePointerOk (registryStepAppTsx st op) = true :=
  registryEffectAppTsx_ok _

/-- The `src/App.tsx` variant of the registry maintains the active-pointer
invariant after every operation sequence: its remove handler reassigns the
pointer synchronously and its effect repairs any dangling pointer.  (This
is the behaviour §4.6 of the spec describes; the `part_000` variant does
not implement it, see the C1 theorem.) -/
theorem registry_appTsx_invariant (ops : List RegOp) :
    activePointerOk (runRegistryAppTsx ops) = true := by
  have main : ∀ (l : List RegOp) (st : RegistryState), activePointerOk st = true →
      activePointerOk (l.foldl registryStepAppTsx st) = true := by
    intro l
    induction l with
    | nil => intro st h; exact h
    | cons op rest ih =>
      intro st _
      exact ih (registryStepAppTsx st op) (registryStepAppTsx_ok st op)
  exact main ops ⟨[], none⟩ rfl

/-- C1 (claims the registry active-pointer invariant): in the `part_000`
App, removing the active source while another source remains leaves
`activeDataSourceId` pointing at the removed id — the handler only filters
`dataSources` and the effect reassigns nothing because the pointer is not
null.  After `add 1; add 2; select 1; removeActive` the registry holds
only source 2 yet the active pointer still holds 1, so the invariant fails
exactly where the claim asserts the reassignment rule fires. -/
theorem registry_remove_active_dangles :
    runRegistryP000 [RegOp.add 1, RegOp.add 2, RegOp.select 1, RegOp.removeActive] =
      ⟨[2], some 1⟩ ∧
    activePointerOk
      (runRegistryP000 [RegOp.add 1, RegOp.add 2, RegOp.select 1, RegOp.removeActive]) =
      false := by
  decide

/-- C2: exporting a data source with the single-source export envelope and
re-importing the result through the reconciler's canonical-envelope branch
gives back a source with the same `dataType` and element-for-element-equal
`data`; chart items lose exactly their `id` property on export. -/
theorem export_import_round_trip (sourceName fileName : String) (data : List Json) :
    classifyImport (downloadJsonEnvelope sourceName data) fileName =
      .ok ⟨sourceName, "numerical", data⟩ ∧
    classifyImport (downloadChartJsonEnvelope sourceName data) fileName =
      .ok ⟨sourceName, "chart", data.map stripIdField⟩ := by
  constructor <;> rfl

/-- C3 counterexample: a bare array whose first element has a `title`
field and a page-identifying field (`pageNumber`) — but no `coordinates`
field — is rejected with the unrecognized-format error instead of being
adopted as a chart source, because the code's legacy-chart heuristic
requires `title` together with `coordinates`. -/
theorem import_chart_heuristic_counterexample :
    classifyImport
      (Json.arr [Json.obj [("title", Json.str "Chart A"), ("pageNumber", Json.num 2)]])
      "report.json" = .error msgUnrecognizedArray := by
  rfl

/-- C3 amended: the reconciler classifies a parsed JSON value by first
match in this order — (a) a non-array object with string `name`,
`dataType` in {`numerical`, `chart`} and array `data` is adopted with the
declared `dataType`; (b) an empty bare array becomes an empty numerical
source; (c) a non-empty bare array whose first element has both a `value`
and a `year` key becomes a numerical source named after the file; (d) a
non-empty bare array whose first element has both a `title` and a
`coordinates` key becomes a chart source named `<file> (Charts)`; (e)
any other bare array fails with the unrecognized-format error naming the
expected discriminator keys, and any other value fails with the
invalid-format error; only the first element is inspected by the legacy
heuristics. -/
theorem import_classification (parsed : Json) (fileName : String) :
    (∀ fs n dt d, parsed = Json.obj fs →
      jsGetField parsed "name" = some (.str n) →
      jsGetField parsed "dataType" = some (.str dt) →
      (dt = "numerical" ∨ dt = "chart") →
      jsGetField parsed "data" = some (.arr d) →
      classifyImport parsed fileName = .ok ⟨n, dt, d⟩) ∧
    (parsed = Json.arr [] →
      classifyImport parsed fileName = .ok ⟨fileName, "numerical", []⟩) ∧
    (∀ f r, parsed = Json.arr (f :: r) →
      jsHasKey f "value" = true → jsHasKey f "year" = true →
      classifyImport parsed fileName = .ok ⟨fileName, "numerical", f :: r⟩) ∧
    (∀ f r, parsed = Json.arr (f :: r) →
      ¬(jsHasKey f "value" = true ∧ jsHasKey f "year" = true) →
      jsHasKey f "title" = true → jsHasKey f "coordinates" = true →
      classifyImport parsed fileName = .ok ⟨fileName ++ " (Charts)", "chart", f :: r⟩) ∧
    (∀ f r, parsed = Json.arr (f :: r) →
      ¬(jsHasKey f "value" = true ∧ jsHasKey f "year" = true) →
      ¬(jsHasKey f "title" = true ∧ jsHasKey f "coordinates" = true) →
      classifyImport parsed fileName = .error msgUnrecognizedArray) ∧
    ((∀ fs, parsed ≠ Json.obj fs) → (∀ l, parsed ≠ Json.arr l) →
      classifyImport parsed fileName = .error msgInvalidImportFormat) := by
  refine ⟨?_, ?_, ?_, ?_, ?_, ?_⟩
  · rintro fs n dt d rfl hname hdt hdtval hdata
    simp only [jsGetField] at hname hdt hdata
    rcases hdtval with rfl | rfl <;>
      simp [classifyImport, jsGetField, hname, hdt, hdata]
  · rintro rfl; rfl
  · rintro f r rfl hv hy
    simp [classifyImport, hv, hy]
  · rintro f r rfl hvy ht hc
    rw [Classical.not_and_iff_or_not_not] at hvy
    rcases hvy with hv | hy
    · simp only [Bool.not_eq_true] at hv
      simp [classifyImport, hv, ht, hc]
    · simp only [Bool.not_eq_true] at hy
      simp [classifyImport, hy, ht, hc]
  · rintro f r rfl hvy htc
    rw [Classical.not_and_iff_or_not_not] at hvy htc
    simp only [Bool.not_eq_true] at hvy htc
    rcases hvy with hv | hy <;> rcases htc with ht | hc <;>
      simp_all [classifyImport]
  · intro hobj harr
    cases parsed with
    | obj fs => exact absurd rfl (hobj fs)
    | arr l => exact absurd rfl (harr l)
    | null => rfl
    | bool b => rfl
    | num n => rfl
    | str s => rfl

/-- C4 counterexample: the Gemini normalizer passes a present string
`value` through unchanged (`item.value !== undefined ? item.value : "N/A"`),
so the normalized value is the string `12,345.67` — neither a number nor
the literal `N/A`. -/
theorem normalizer_value_passthrough_counterexample :
    (geminiNormalizeItem (Json.obj [("value", Json.str "12,345.67")]) "doc.pdf").map
        (fun r => r.value) = .ok (Json.str "12,345.67") ∧
    Json.isNum (Json.str "12,345.67") = false ∧
    Json.str "12,345.67" ≠ Json.str "N/A" := by
  decide

/-- C4 amended: the normalized `year` is always the number
`parseInt(String(item.year), 10)` with fallback 0 — never absent, never a
string.  The normalized `value` is the literal string `N/A` when the field
is absent (or, in the Ollama variant, `null`), and otherwise the item's
own value unchanged, whatever JSON value that is.  The Ollama per-element
coercion is total; the Gemini per-element coercion is total on non-`null`
items and throws a `TypeError` on a `null` array element. -/
theorem normalizer_field_invariants (item : Json) (fileName : String) :
    ((ollamaNormalizeItem item fileName).year =
        Json.num (normalizedYear (jsGetField item "year")) ∧
      ((ollamaNormalizeItem item fileName).value = Json.str "N/A" ∨
        ∃ v, jsGetField item "value" = some v ∧ v ≠ Json.null ∧
          (ollamaNormalizeItem item fileName).value = v)) ∧
    (item ≠ Json.null →
      ∃ r, geminiNormalizeItem item fileName = .ok r ∧
        r.year = Json.num (normalizedYear (jsGetField item "year")) ∧
        (r.value = Json.str "N/A" ∨
          ∃ v, jsGetField item "value" = some v ∧ r.value = v)) ∧
    (item = Json.null →
      geminiNormalizeItem item fileName =
        .error "TypeError: cannot read properties of null") := by
  refine ⟨⟨rfl, ?_⟩, ?_, ?_⟩
  · match hv : jsGetField item "value" with
    | none => left; simp [ollamaNormalizeItem, hv, jsNullish]
    | some .null =>
      left
      simp [ollamaNormalizeItem, hv, jsNullish]
    | some (.bool b) => right; exact ⟨_, rfl, by simp, by simp [ollamaNormalizeItem, hv, jsNullish]⟩
    | some (.num n) => right; exact ⟨_, rfl, by simp, by simp [ollamaNormalizeItem, hv, jsNullish]⟩
    | some (.str s) => right; exact ⟨_, rfl, by simp, by simp [ollamaNormalizeItem, hv, jsNullish]⟩
    | some (.arr l) => right; exact ⟨_, rfl, by simp, by simp [ollamaNormalizeItem, hv, jsNullish]⟩
    | some (.obj fs) => right; exact ⟨_, rfl, by simp, by simp [ollamaNormalizeItem, hv, jsNullish]⟩
  · intro hnn
    have hok : ∀ rec, geminiNormalizeItem item fileName = .ok rec →
        rec.year = Json.num (normalizedYear (jsGetField item "year")) ∧
        (rec.value = Json.str "N/A" ∨
          ∃ v, jsGetField item "value" = some v ∧ rec.value = v) := by
      intro rec hrec
      cases item with
      | null => exact absurd rfl hnn
      | bool b =>
        simp only [geminiNormalizeItem, Except.ok.injEq] at hrec
        subst hrec
        refine ⟨rfl, ?_⟩
        match hv : jsGetField (Json.bool b) "value" with
        | none => left; simp [jsIfDefined, hv]
        | some v => right; exact ⟨v, rfl, by simp [jsIfDefined, hv]⟩
      | num n =>
        simp only [geminiNormalizeItem, Except.ok.injEq] at hrec
        subst hrec
        refine ⟨rfl, ?_⟩
        match hv : jsGetField (Json.num n) "value" with
        | none => left; simp [jsIfDefined, hv]
        | some v => right; exact ⟨v, rfl, by simp [jsIfDefined, hv]⟩
      | str s =>
        simp only [geminiNormalizeItem, Except.ok.injEq] at hrec
        subst hrec
        refine ⟨rfl, ?_⟩
        match hv : jsGetField (Json.str s) "value" with
        | none => left; simp [jsIfDefined, hv]
        | some v => right; exact ⟨v, rfl, by simp [jsIfDefined, hv]⟩
      | arr l =>
        simp only [geminiNormalizeItem, Except.ok.injEq] at hrec
        subst hrec
        refine ⟨rfl, ?_⟩
        match hv : jsGetField (Json.arr l) "value" with
        | none => left; simp [jsIfDefined, hv]
        | some v => right; exact ⟨v, rfl, by simp [jsIfDefined, hv]⟩
      | obj fs =>
        simp only [geminiNormalizeItem, Except.ok.injEq] at hrec
        subst hrec
        refine ⟨rfl, ?_⟩
        match hv : jsGetField (Json.obj fs) "value" with
        | none => left; simp [jsIfDefined, hv]
        | some v => right; exact ⟨v, rfl, by simp [jsIfDefined, hv]⟩
    cases item with
    | null => exact absurd rfl hnn
    | bool b => exact ⟨_, rfl, hok _ rfl⟩
    | num n => exact ⟨_, rfl, hok _ rfl⟩
    | str s => exact ⟨_, rfl, hok _ rfl⟩
    | arr l => exact ⟨_, rfl, hok _ rfl⟩
    | obj fs => exact ⟨_, rfl, hok _ rfl⟩
  · rintro rfl; rfl

/-- C4 witness: applying the amended invariant to a concrete item whose
raw year is the string `"2023"`. -/
theorem normalizer_field_invariants_witness :
    (geminiNormalizeItem (Json.obj [("year", Json.str "2023")]) "a.pdf").map
        (fun r => r.year) = .ok (Json.num 2023) := by
  obtain ⟨r, hr, hyear, hval⟩ :=
    (normalizer_field_invariants (Json.obj [("year", Json.str "2023")]) "a.pdf").2.1
      (by decide)
  rw [hr]
  simp only [Except.map]
  rw [hyear]
  have hfld : jsGetField (Json.obj [("year", Json.str "2023")]) "year" =
      some (Json.str "2023") := by decide
  rw [normalizedYear, hfld]
  simp only [jsToStringU, jsToString]
  decide

/-- C10 counterexample: for the raw item `{"name": ""}` the Gemini
normalizer replaces the falsy empty-string name by `N/A` (`item.name ||
"N/A"`), while the Ollama normalizer keeps the empty string (`item?.name
?? 'N/A'` only replaces null/undefined) — the variants do not apply the
same defaults to the same falsy fields. -/
theorem crossvariant_name_default_counterexample :
    geminiNormalizeItem (Json.obj [("name", Json.str "")]) "doc.pdf" ≠
      .ok (ollamaNormalizeItem (Json.obj [("name", Json.str "")]) "doc.pdf") := by
  decide

/-- C10 amended: the Gemini and Azure normalizers are identical for every
raw item; the Ollama normalizer agrees with them on every item that is not
`null` and whose normalized fields are each absent or truthy (on falsy
non-null fields such as an empty-string name or a zero page the `||`
defaults of Gemini/Azure and the `??` defaults of Ollama differ). -/
theorem crossvariant_normalizer_agreement (item : Json) (fileName : String) :
    azureNormalizeItem item fileName = geminiNormalizeItem item fileName ∧
    (tameItem item = true →
      geminiNormalizeItem item fileName = .ok (ollamaNormalizeItem item fileName)) := by
  constructor
  · rfl
  · intro h
    simp only [tameItem, Bool.and_eq_true, decide_eq_true_eq] at h
    obtain ⟨⟨⟨⟨⟨⟨⟨⟨⟨⟨hnn, h1⟩, h2⟩, h3⟩, h4⟩, h5⟩, h6⟩, h7⟩, h8⟩, h9⟩, h10⟩ := h
    have e1 := jsOrDefault_eq_nullish_of_tame (jsGetField item "name") (.str "N/A") h1
    have e2 := jsOrDefault_eq_nullish_of_tame (jsGetField item "subcategory") (.str "") h2
    have e3 := jsIfDefined_eq_nullish_of_tame (jsGetField item "value") (.str "N/A") h3
    have e4 := jsOrDefault_eq_nullish_of_tame (jsGetField item "unit") (.str "") h4
    have e5 := jsOrDefault_eq_nullish_of_tame (jsGetField item "period") (.str "N/A") h5
    have e6 := jsIfDefined_eq_nullish_of_tame (jsGetField item "page") (.num 0) h6
    have e7 := jsOrDefault_eq_nullish_of_tame (jsGetField item "source") (.str "N/A") h7
    have e8 := jsOrDefault_eq_nullish_of_tame (jsGetField item "file") (.str fileName) h8
    have e9 := jsOrDefault_eq_nullish_of_tame (jsGetField item "bankName") (.str "") h9
    have e10 := jsOrDefault_eq_nullish_of_tame (jsGetField item "documentType") (.str "") h10
    cases item with
    | null => exact absurd rfl hnn
    | bool b =>
      simp only [geminiNormalizeItem, ollamaNormalizeItem, e1, e2, e3, e4, e5, e6, e7, e8, e9, e10]
    | num n =>
      simp only [geminiNormalizeItem, ollamaNormalizeItem, e1, e2, e3, e4, e5, e6, e7, e8, e9, e10]
    | str s =>
      simp only [geminiNormalizeItem, ollamaNormalizeItem, e1, e2, e3, e4, e5, e6, e7, e8, e9, e10]
    | arr l =>
      simp only [geminiNormalizeItem, ollamaNormalizeItem, e1, e2, e3, e4, e5, e6, e7, e8, e9, e10]
    | obj fs =>
      simp only [geminiNormalizeItem, ollamaNormalizeItem, e1, e2, e3, e4, e5, e6, e7, e8, e9, e10]

/-- C10 witness: on the concrete tame item `{"name": "Revenue"}` the
Gemini and Ollama normalizers agree. -/
theorem crossvariant_normalizer_agreement_witness :
    geminiNormalizeItem (Json.obj [("name", Json.str "Revenue")]) "a.pdf" =
      .ok (ollamaNormalizeItem (Json.obj [("name", Json.str "Revenue")]) "a.pdf") :=
  (crossvariant_normalizer_agreement (Json.obj [("name", Json.str "Revenue")]) "a.pdf").2
    (by decide)

/-! ## Code-fence stripping and response parsing

`stripCodeFence` (`src/services/ollamaService.ts`, lines 7–11) applies the
regex `^\x60\x60\x60(?:json)?\s*\n?(.*?)\n?\s*\x60\x60\x60$` (with the `s`
flag) to the trimmed text and returns the trimmed capture when it is
non-empty, otherwise the trimmed input; the Gemini variant (lines 260–266)
inlines the same regex.  The deterministic rendering below follows the
backtracking order of the regex engine: the optional `json` tag is
consumed greedily when present (this never loses a match, because the
closing fence has to supply the final three backticks either way), the
greedy leading `\s*\n?` and the lazy capture put every boundary
whitespace character outside the capture, so the capture is exactly the
trimmed middle. -/

/-- The `stripCodeFence` regex on a character list: if the trimmed text
starts with three backticks (optionally followed by `json`) and ends with
three backticks, return the trimmed enclosed text when non-empty;
otherwise return the whole trimmed text. -/
def stripCodeFenceCore (s : List Char) : List Char :=
  let t := jsTrim s
  match t with
  | '`' :: '`' :: '`' :: rest =>
    let r := if rest.take 4 = ['j', 's', 'o', 'n'] then rest.drop 4 else rest
    match r.reverse with
    | '`' :: '`' :: '`' :: midRev =>
      let g := jsTrim midRev.reverse
      if g.isEmpty then t else g
    | _ => t
  | _ => t

/-- The function `stripCodeFence` on a machine string. -/
def stripCodeFence (s : String) : String :=
  String.mk (stripCodeFenceCore s.toList)

/-! ### A model of `JSON.parse`

Total by fuel (the input length bounds the recursion).  Numbers follow the
JSON grammar (optional sign, no leading zeros, optional fraction and
exponent) but their value is modelled by the integer part, matching the
integer modelling of `Json.num`; object keys are kept in order. -/

/-- Whitespace accepted between JSON tokens. -/
def isJsonWsChar (c : Char) : Bool :=
  c == ' ' || c == '\t' || c == '\n' || c == '\r'

/-- Value of a hexadecimal digit. -/
def jsonHexVal (c : Char) : Option Nat :=
  if '0' ≤ c ∧ c ≤ '9' then some (c.toNat - '0'.toNat)
  else if 'a' ≤ c ∧ c ≤ 'f' then some (c.toNat - 'a'.toNat + 10)
  else if 'A' ≤ c ∧ c ≤ 'F' then some (c.toNat - 'A'.toNat + 10)
  else none

/-- One-character JSON string escapes. -/
def jsonUnescapeChar (c : Char) : Option Char :=
  if c = '"' ∨ c = '\\' ∨ c = '/' then some c
  else if c = 'n' then some '\n'
  else if c = 'r' then some '\r'
  else if c = 't' then some '\t'
  else if c = 'b' then some (Char.ofNat 8)
  else if c = 'f' then some (Char.ofNat 12)
  else none

/-- Parse the body of a JSON string (after the opening quote), returning
the decoded characters and the remaining input. -/
def jsonParseStrChars : List Char → Option (List Char × List Char)
  | [] => none
  | '"' :: rest => some ([], rest)
  | '\\' :: 'u' :: a :: b :: c :: d :: rest =>
    match jsonHexVal a, jsonHexVal b, jsonHexVal c, jsonHexVal d with
    | some va, some vb, some vc, some vd =>
      (jsonParseStrChars rest).map
        (fun p => (Char.ofNat (((va * 16 + vb) * 16 + vc) * 16 + vd) :: p.1, p.2))
    | _, _, _, _ => none
  | '\\' :: e :: rest =>
    match jsonUnescapeChar e with
    | some ch => (jsonParseStrChars rest).map (fun p => (ch :: p.1, p.2))
    | none => none
  | c :: rest => (jsonParseStrChars rest).map (fun p => (c :: p.1, p.2))

/-- Parse a JSON number, returning its integer part and the remaining
input. -/
def jsonParseNumChars (cs : List Char) : Option (Int × List Char) :=
  let signed : Int × List Char := match cs with
    | '-' :: r => (-1, r)
    | _ => (1, cs)
  let ds := signed.2.takeWhile Char.isDigit
  if ds.isEmpty then none
  else if 1 < ds.length ∧ ds.headI = '0' then none
  else
    let rest1 := signed.2.drop ds.length
    let afterFrac : Option (List Char) := match rest1 with
      | '.' :: r =>
        let fs := r.takeWhile Char.isDigit
        if fs.isEmpty then none else some (r.drop fs.length)
      | _ => some rest1
    match afterFrac with
    | none => none
    | some rest2 =>
      match rest2 with
      | 'e' :: r | 'E' :: r =>
        let r2 := match r with
          | '+' :: rr => rr
          | '-' :: rr => rr
          | _ => r
        let es := r2.takeWhile Char.isDigit
        if es.isEmpty then none
        else some (signed.1 * (digitsVal ds : Int), r2.drop es.length)
      | _ => some (signed.1 * (digitsVal ds : Int), rest2)

mutual

def jsonParseVal : Nat → List Char → Option (Json × List Char)
  | 0, _ => none
  | fuel + 1, cs =>
    match cs.dropWhile isJsonWsChar with
    | 'n' :: 'u' :: 'l' :: 'l' :: rest => some (.null, rest)
    | 't' :: 'r' :: 'u' :: 'e' :: rest => some (.bool true, rest)
    | 'f' :: 'a' :: 'l' :: 's' :: 'e' :: rest => some (.bool false, rest)
    | '"' :: rest =>
      (jsonParseStrChars rest).map (fun p => (.str (String.mk p.1), p.2))
    | '[' :: rest =>
      (match rest.dropWhile isJsonWsChar with
       | ']' :: rest2 => some (.arr [], rest2)
       | _ => jsonParseArrElems fuel rest [])
    | '{' :: rest =>
      (match rest.dropWhile isJsonWsChar with
       | '}' :: rest2 => some (.obj [], rest2)
       | _ => jsonParseObjMembers fuel rest [])
    | rest => (jsonParseNumChars rest).map (fun p => (.num p.1, p.2))

def jsonParseArrElems : Nat → List Char → List Json → Option (Json × List Char)
  | 0, _, _ => none
  | fuel + 1, cs, acc =>
    match jsonParseVal fuel cs with
    | none => none
    | some (v, rest) =>
      match rest.dropWhile isJsonWsChar with
      | ',' :: rest2 => jsonParseArrElems fuel rest2 (acc ++ [v])
      | ']' :: rest2 => some (.arr (acc ++ [v]), rest2)
      | _ => none

def jsonParseObjMembers : Nat → List Char → List (String × Json) → Option (Json × List Char)
  | 0, _, _ => none
  | fuel + 1, cs, acc =>
    match cs.dropWhile isJsonWsChar with
    | '"' :: rest =>
      match jsonParseStrChars rest with
      | none => none
      | some (key, rest2) =>
        match rest2.dropWhile isJsonWsChar with
        | ':' :: rest3 =>
          match jsonParseVal fuel rest3 with
          | none => none
          | some (v, rest4) =>
            match rest4.dropWhile isJsonWsChar with
            | ',' :: rest5 => jsonParseObjMembers fuel rest5 (acc ++ [(String.mk key, v)])
            | '}' :: rest5 => some (.obj (acc ++ [(String.mk key, v)]), rest5)
            | _ => none
        | _ => none
    | _ => none

end

/-- The model of `JSON.parse`: parse one value and require only trailing
whitespace; `none` models a thrown `SyntaxError`. -/
def jsonParse (s : List Char) : Option Json :=
  match jsonParseVal (s.length + 1) s with
  | some (v, rest) => if (rest.dropWhile isJsonWsChar).isEmpty then some v else none
  | none => none

/-- The function `parseJsonArrayOrThrow` (`src/services/ollamaService.ts`, lines 14–28):
strip the fence, parse, and require an array.  Both a parse failure and a
non-array value surface as the `Failed to parse` error carrying a 250
character sample of the cleaned text, because the inner `not an array`
throw is swallowed by the surrounding catch. -/
def parseJsonArrayOrThrow (text : String) (rawSampleLabel : String) : Except String (List Json) :=
  let cleaned := stripCodeFenceCore text.toList
  match jsonParse cleaned with
  | some (Json.arr xs) => .ok xs
  | _ =>
    .error ("Failed to parse AI JSON (" ++ rawSampleLabel ++ "). Sample: \"" ++
      String.mk (cleaned.take 250) ++ (if cleaned.length > 250 then "..." else "") ++ "\"")

theorem jsTrim_cons_ws (c : Char) (l : List Char) (h : isWsChar c = true) :
    jsTrim (c :: l) = jsTrim l := by
  simp [jsTrim, List.dropWhile_cons, h]

theorem jsTrim_append_ws (l : List Char) (c : Char) (h : isWsChar c = true) :
    jsTrim (l ++ [c]) = jsTrim l := by
  unfold jsTrim
  rw [List.dropWhile_append]
  by_cases he : (l.dropWhile isWsChar).isEmpty
  · rw [List.isEmpty_iff] at he
    rw [he]
    simp [List.dropWhile_cons, h]
  · simp [he, List.dropWhile_cons, h]

theorem jsTrim_ends (a : Char) (l : List Char) (b : Char)
    (ha : isWsChar a = false) (hb : isWsChar b = false) :
    jsTrim (a :: (l ++ [b])) = a :: (l ++ [b]) := by
  simp [jsTrim, List.dropWhile_cons, ha, hb, List.reverse_append]

/-- The opening fence `\x60\x60\x60json\n` prepended by the provider-side
wrapping. -/
def fenceHeadJson : List Char := '`' :: '`' :: '`' :: 'j' :: 's' :: 'o' :: 'n' :: '\n' :: []

/-- The opening fence without the `json` tag. -/
def fenceHeadPlain : List Char := '`' :: '`' :: '`' :: '\n' :: []

/-- The closing fence `\n\x60\x60\x60`. -/
def fenceTail : List Char := '\n' :: '`' :: '`' :: '`' :: []

theorem stripCore_fence_json (t : List Char) (h : jsTrim t ≠ []) :
    stripCodeFenceCore (fenceHeadJson ++ (t ++ fenceTail)) = jsTrim t := by
  have hshape : fenceHeadJson ++ (t ++ fenceTail) =
      '`' :: '`' :: '`' :: 'j' :: 's' :: 'o' :: 'n' :: '\n' :: (t ++ ['\n', '`', '`', '`']) := by
    simp [fenceHeadJson, fenceTail]
  have htrim : jsTrim ('`' :: '`' :: '`' :: 'j' :: 's' :: 'o' :: 'n' :: '\n' :: (t ++ ['\n', '`', '`', '`'])) =
      '`' :: '`' :: '`' :: 'j' :: 's' :: 'o' :: 'n' :: '\n' :: (t ++ ['\n', '`', '`', '`']) := by
    have e : ('`' :: '`' :: '`' :: 'j' :: 's' :: 'o' :: 'n' :: '\n' :: (t ++ ['\n', '`', '`', '`'])) =
        '`' :: (('`' :: '`' :: 'j' :: 's' :: 'o' :: 'n' :: '\n' :: (t ++ ['\n', '`', '`'])) ++ ['`']) := by
      simp
    rw [e, jsTrim_ends _ _ _ (by decide) (by decide), ← e]
  have hmid : jsTrim ('\n' :: (t ++ ['\n'])) = jsTrim t := by
    rw [jsTrim_cons_ws _ _ (by decide), jsTrim_append_ws _ _ (by decide)]
  have hcond : ('j' :: 's' :: 'o' :: 'n' :: '\n' :: (t ++ ['\n', '`', '`', '`'])).take 4 =
      ['j', 's', 'o', 'n'] := rfl
  have hdrop : ('j' :: 's' :: 'o' :: 'n' :: '\n' :: (t ++ ['\n', '`', '`', '`'])).drop 4 =
      '\n' :: (t ++ ['\n', '`', '`', '`']) := rfl
  have hrev : ('\n' :: (t ++ ['\n', '`', '`', '`'])).reverse =
      '`' :: '`' :: '`' :: '\n' :: (t.reverse ++ ['\n']) := by
    simp
  have hrev2 : ('\n' :: (t.reverse ++ ['\n'])).reverse = '\n' :: (t ++ ['\n']) := by
    simp
  rw [hshape]
  simp only [stripCodeFenceCore, htrim, hcond, hdrop, if_pos, hrev, hrev2, hmid]
  rw [if_neg (by simp [List.isEmpty_iff, h])]

theorem stripCore_fence_plain (t : List Char) (h : jsTrim t ≠ []) :
    stripCodeFenceCore (fenceHeadPlain ++ (t ++ fenceTail)) = jsTrim t := by
  have hshape : fenceHeadPlain ++ (t ++ fenceTail) =
      '`' :: '`' :: '`' :: '\n' :: (t ++ ['\n', '`', '`', '`']) := by
    simp [fenceHeadPlain, fenceTail]
  have htrim : jsTrim ('`' :: '`' :: '`' :: '\n' :: (t ++ ['\n', '`', '`', '`'])) =
      '`' :: '`' :: '`' :: '\n' :: (t ++ ['\n', '`', '`', '`']) := by
    have e : ('`' :: '`' :: '`' :: '\n' :: (t ++ ['\n', '`', '`', '`'])) =
        '`' :: (('`' :: '`' :: '\n' :: (t ++ ['\n', '`', '`'])) ++ ['`']) := by
      simp
    rw [e, jsTrim_ends _ _ _ (by decide) (by decide), ← e]
  have hmid : jsTrim ('\n' :: (t ++ ['\n'])) = jsTrim t := by
    rw [jsTrim_cons_ws _ _ (by decide), jsTrim_append_ws _ _ (by decide)]
  have hcond : (('\n' :: (t ++ ['\n', '`', '`', '`'])).take 4 = ['j', 's', 'o', 'n']) = False := by
    simp
  have hrev : ('\n' :: (t ++ ['\n', '`', '`', '`'])).reverse =
      '`' :: '`' :: '`' :: '\n' :: (t.reverse ++ ['\n']) := by
    simp
  have hrev2 : ('\n' :: (t.reverse ++ ['\n'])).reverse = '\n' :: (t ++ ['\n']) := by
    simp
  rw [hshape]
  simp only [stripCodeFenceCore, htrim, hcond, if_false, hrev, hrev2, hmid]
  rw [if_neg (by simp [List.isEmpty_iff, h])]

theorem toList_fence_json (t : String) :
    ("```json\n" ++ t ++ "\n```").toList = fenceHeadJson ++ (t.toList ++ fenceTail) := by
  simp only [String.toList, String.data_append, List.append_assoc]
  rfl

theorem toList_fence_plain (t : String) :
    ("```\n" ++ t ++ "\n```").toList = fenceHeadPlain ++ (t.toList ++ fenceTail) := by
  simp only [String.toList, String.data_append, List.append_assoc]
  rfl

/-- C9 counterexample: for the raw response `t` that is itself a fenced
block, `stripCodeFence` on `t` unwraps it and the normalizer succeeds with
the parsed array, while on the re-fenced form the single unwrapping step
leaves the inner fence in place and the normalizer fails — the fenced and
unfenced forms do not produce the same structured output. -/
theorem fence_double_wrap_counterexample :
    parseJsonArrayOrThrow ("```json\n" ++ "```json\n[1]\n```" ++ "\n```") "analyzeDocument" ≠
      parseJsonArrayOrThrow "```json\n[1]\n```" "analyzeDocument" ∧
    parseJsonArrayOrThrow "```json\n[1]\n```" "analyzeDocument" = .ok [Json.num 1] := by
  decide

/-- C9 amended: for every raw provider text `t` whose trimmed form is
non-empty and which is not itself fence-wrapped (stripping `t` is the same
as trimming it), normalizing the fenced form — with or without the `json`
tag — produces exactly the same structured output as normalizing `t`
directly, because the fence stripper recovers the trimmed `t` from the
wrapped text.  (For an empty or whitespace-only `t` the capture group is
empty and the fence is left in place; for an already-fenced `t` the two
sides differ, see the counterexample.) -/
theorem fence_stripping_equivalence (t : String) (label : String)
    (h1 : jsTrim t.toList ≠ [])
    (h2 : stripCodeFenceCore t.toList = jsTrim t.toList) :
    parseJsonArrayOrThrow ("```json\n" ++ t ++ "\n```") label = parseJsonArrayOrThrow t label ∧
    parseJsonArrayOrThrow ("```\n" ++ t ++ "\n```") label = parseJsonArrayOrThrow t label := by
  constructor
  · simp only [parseJsonArrayOrThrow, toList_fence_json, stripCore_fence_json _ h1, h2]
  · simp only [parseJsonArrayOrThrow, toList_fence_plain, stripCore_fence_plain _ h1, h2]

/-- C9 witness: the fenced and unfenced forms of the concrete response
`[1]` normalize identically. -/
theorem fence_stripping_equivalence_witness :
    parseJsonArrayOrThrow ("```json\n" ++ "[1]" ++ "\n```") "analyzeDocument" =
      parseJsonArrayOrThrow "[1]" "analyzeDocument" :=
  (fence_stripping_equivalence "[1]" "analyzeDocument" (by decide) (by decide)).1

/-! ## Prompt assembly and truncation

The three `analyzeDocument` variants build `combinedTextForPrompt`
identically: a `Document: <file>` header, then one section per page whose
text is cut at 15000 characters (with a marker appended when cut), then an
overall cut of the assembled content at 100000 characters (with a second
marker); the capped content is spliced into a fixed instruction template.
Strings are `List Char`; the character count is the model of the
JavaScript `.length`. -/

/-- One page of extracted text as handed to `analyzeDocument`. -/
structure PageTextModel where
  pageNumber : Int
  text : List Char

/-- The marker appended to a page text cut at 15000 characters. -/
def pageTruncMarker : List Char := "... [TRUNCATED]".toList

/-- The marker appended to the combined content cut at 100000 characters. -/
def overallTruncMarker : List Char := "\n... [TRUNCATED DUE TO OVERALL LENGTH]".toList

/-- Per-page truncation: `pt.text.length > 15000 ?
pt.text.substring(0, 15000) + \x27... [TRUNCATED]\x27 : pt.text`. -/
def sanitizePageText (t : List Char) : List Char :=
  if t.length > 15000 then t.take 15000 ++ pageTruncMarker else t

/-- The section appended for one page:
`--- Page <n> ---\n<sanitized>\n\n`. -/
def pageSection (pt : PageTextModel) : List Char :=
  "--- Page ".toList ++ (toString pt.pageNumber).toList ++ " ---\n".toList ++
    sanitizePageText pt.text ++ "\n\n".toList

/-- The initial value `Document: <fileName>\n\n`. -/
def combinedHeader (fileName : String) : List Char :=
  "Document: ".toList ++ fileName.toList ++ "\n\n".toList

/-- Overall truncation of the assembled content at 100000 characters. -/
def capCombined (c : List Char) : List Char :=
  if c.length > 100000 then c.take 100000 ++ overallTruncMarker else c

/-- Model of `combinedTextForPrompt` as all three variants assemble it: start from
the header, append one section per page in order, then apply the overall
cut. -/
def buildCombinedText (fileName : String) (pages : List PageTextModel) : List Char :=
  capCombined (pages.foldl (fun acc pt => acc ++ pageSection pt) (combinedHeader fileName))

/-- Ollama `analyzeDocument` instruction text before the first `fileName` splice. -/
def ollamaPromptP1 : String :=
  "\nYou are an expert financial document analysis assistant.\nFrom the provided text extracted from the document \""

/-- Ollama instruction text between the first `fileName` splice and the content. -/
def ollamaPromptP2 : String :=
  "\", extract structured financial data.\nThe text is provided page by page below:\n"

/-- Ollama instruction text between the content and the second `fileName` splice. -/
def ollamaPromptP3 : String :=
  "\n\nYour response MUST be a valid JSON array. Each element in the array should be a JSON object representing a single financial data item.\nEach annual data point (even for the same metric from different years or contexts) MUST be a separate JSON object.\n\nEach JSON object MUST conform to the following structure:\n\x7b\n  \"name\": \"string (e.g., \x27Loans\x27 or \x27Basic earnings per share\x27)\",\n  \"subcategory\": \"string (e.g., \x27Retail\x27 or \x27Wholesale\x27, leave empty or omit if not applicable)\",\n  \"value\": \"number or string (numeric value, ideally as a number, e.g., 12345.67 or \x2712,345.67\x27. If text represents a number like \x2712.3 million\x27, convert to 12300000. If nil/zero/\x27--\x27, use 0.)\",\n  \"unit\": \"string (e.g., \x27AUD\x27, \x27%\x27, \x27millions\x27, \x27USD millions\x27. If value was \x2712.3 million\x27, unit should be \x27USD\x27 or similar, not \x27millions\x27 if value is already expanded)\",\n  \"year\": \"number (The financial year, e.g., 2024. This field is MANDATORY and must be a number. Derive it from the \x27period\x27 or column header.)\",\n  \"period\": \"string (e.g., \x2730 Jun 2024\x27, \x27Q1 2023\x27, \x272023\x27). If not available, use \x27N/A\x27.\",\n  \"page\": \"number (page number from which the data was extracted; must match one of the provided page numbers.)\",\n  \"source\": \"string (original full paragraph or table row/cell group containing the data point; concise yet complete; max 300 chars.)\",\n  \"file\": \"string (use \x27"

/-- Ollama instruction text after the second `fileName` splice. -/
def ollamaPromptP4 : String :=
  "\x27)\",\n  \"bankName\": \"string (leave empty if not identifiable)\",\n  \"documentType\": \"string (leave empty if not identifiable)\"\n\x7d\n\nAnalyze carefully. \x27year\x27 is mandatory and must be a number. \x27page\x27 must be accurate. Focus on quantifiable metrics. \nReply ONLY with the JSON array, no extra text or Markdown.\n"

/-- Gemini `analyzeDocument` instruction text before the first `fileName` splice. -/
def geminiPromptP1 : String :=
  "\nYou are an expert financial document analysis assistant.\nFrom the provided text extracted from the document \""

/-- Gemini instruction text between the first `fileName` splice and the content. -/
def geminiPromptP2 : String :=
  "\", extract structured financial data.\nThe text is provided page by page below:\n"

/-- Gemini instruction text between the content and the second `fileName` splice. -/
def geminiPromptP3 : String :=
  "\n\nYour response MUST be a valid JSON array. Each element in the array should be a JSON object representing a single financial data item.\nEach annual data point (even for the same metric from different years or contexts) MUST be a separate JSON object.\n\nEach JSON object MUST conform to the following structure:\n\x7b\n  \"name\": \"string (e.g., \x27Loans\x27 or \x27Basic earnings per share\x27)\",\n  \"subcategory\": \"string (e.g., \x27Retail\x27 or \x27Wholesale\x27, leave empty or omit if not applicable)\",\n  \"value\": \"number or string (numeric value, ideally as a number, e.g., 12345.67 or \x2712,345.67\x27. If text represents a number like \x2712.3 million\x27, convert to 12300000. If nil/zero/\x27--\x27, use 0.)\",\n  \"unit\": \"string (e.g., \x27AUD\x27, \x27%\x27, \x27millions\x27, \x27USD millions\x27. If value was \x2712.3 million\x27, unit should be \x27USD\x27 or similar, not \x27millions\x27 if value is already expanded)\",\n  \"year\": \"number (The financial year, e.g., 2024. This field is MANDATORY and must be a number. Derive it from the \x27period\x27 or column header.)\",\n  \"period\": \"string (e.g., \x2730 Jun 2024\x27, \x27Q1 2023\x27, \x272023\x27). This should capture the specific date or period from the column header. If not available, use \x27N/A\x27.\",\n  \"page\": \"number (page number from which the \x27source\x27 text was extracted, must match one of the provided page numbers. If data is from an uploaded JSON not from a PDF, use 0 or a relevant identifier if available in source JSON)\",\n  \"source\": \"string (original full paragraph or table row/cell group containing the data point, be concise yet complete for context. Max 300 characters. If from an uploaded JSON, this might be a description or key from the source JSON item.)\",\n  \"file\": \"string (source file name, use \x27"

/-- Gemini instruction text after the second `fileName` splice. -/
def geminiPromptP4 : String :=
  "\x27)\",\n  \"bankName\": \"string (e.g., \x27Royal Bank of Canada\x27, \x27HSBC Holdings plc\x27. If not clearly identifiable from the text, leave as an empty string or omit.)\",\n  \"documentType\": \"string (e.g., \x27Annual Report 2023\x27, \x27Q1 Financial Results\x27, \x27S&P Credit Analysis\x27, \x27Sustainability Report\x27. If not clearly identifiable, leave as an empty string or omit.)\"\n\x7d\n\nAnalyze the text carefully. The \x27year\x27 field is mandatory and must be a number. The \x27page\x27 field must accurately reflect the page number.\nExtract as many relevant financial data points as possible.\nIf a subcategory is not apparent, omit the \x27subcategory\x27 field or set it to an empty string.\nFocus on quantifiable financial metrics.\nThe \x27source\x27 text should be the direct snippet from the document that contains the data.\n"

/-- Azure `analyzeDocument` system instruction (sent as a separate system message, never truncated). -/
def azureSystemPrompt : String :=
  "You are an expert financial document analysis assistant. From the provided text, extract structured financial data. Your response MUST be a valid JSON object with a single key \"financialData\", which contains an array of financial data items. Each annual data point MUST be a separate JSON object. Each object MUST conform to this structure: \x7b \"name\": string, \"subcategory\": string, \"value\": number | string, \"unit\": string, \"year\": number (MANDATORY), \"period\": string, \"page\": number, \"source\": string (max 300 chars), \"file\": string, \"bankName\": string, \"documentType\": string \x7d. \x27year\x27 must be a number. \x27page\x27 must be accurate. Focus on quantifiable metrics."

/-- Azure user-message text before the content. -/
def azureUserPromptP1 : String :=
  "Please extract the financial data from the following document text:\n\n"


/-- The Gemini `analyzeDocument` prompt: instruction text around the
capped content. -/
def geminiAnalyzePrompt (fileName : String) (pages : List PageTextModel) : List Char :=
  (geminiPromptP1 ++ fileName ++ geminiPromptP2).toList ++ buildCombinedText fileName pages ++
    (geminiPromptP3 ++ fileName ++ geminiPromptP4).toList

/-- The Ollama `analyzeDocument` prompt; the whole template is trimmed
(`.trim()`). -/
def ollamaAnalyzePrompt (fileName : String) (pages : List PageTextModel) : List Char :=
  jsTrim ((ollamaPromptP1 ++ fileName ++ ollamaPromptP2).toList ++
    buildCombinedText fileName pages ++ (ollamaPromptP3 ++ fileName ++ ollamaPromptP4).toList)

/-- The Azure `analyzeDocument` user message: a fixed request line ahead of
the capped content (the schema instruction travels separately in
`azureSystemPrompt`). -/
def azureUserPrompt (fileName : String) (pages : List PageTextModel) : List Char :=
  azureUserPromptP1.toList ++ buildCombinedText fileName pages

theorem foldl_pageSections (pages : List PageTextModel) (init : List Char) :
    pages.foldl (fun acc pt => acc ++ pageSection pt) init =
      init ++ (pages.map pageSection).flatten := by
  induction pages generalizing init with
  | nil => simp
  | cons p ps ih => simp [ih]

/-- C8: the document-analysis prompt of each variant is its fixed
instruction text around the capped content section; the content section is
the header followed by one section per page, each page contributing the
15000-character prefix of its text with the page marker appended exactly
when the text exceeds 15000 characters; the assembled content is further
cut to its 100000-character prefix with the overall marker exactly when it
exceeds 100000 characters; both cuts are prefix-preserving, and the
instruction text surrounding the content is never touched by either cut. -/
theorem prompt_truncation (fileName : String) (pages : List PageTextModel) :
    geminiAnalyzePrompt fileName pages =
      (geminiPromptP1 ++ fileName ++ geminiPromptP2).toList ++
        capCombined (combinedHeader fileName ++ (pages.map pageSection).flatten) ++
        (geminiPromptP3 ++ fileName ++ geminiPromptP4).toList ∧
    ollamaAnalyzePrompt fileName pages =
      jsTrim ((ollamaPromptP1 ++ fileName ++ ollamaPromptP2).toList ++
        capCombined (combinedHeader fileName ++ (pages.map pageSection).flatten) ++
        (ollamaPromptP3 ++ fileName ++ ollamaPromptP4).toList) ∧
    azureUserPrompt fileName pages =
      azureUserPromptP1.toList ++
        capCombined (combinedHeader fileName ++ (pages.map pageSection).flatten) ∧
    (∀ t : List Char, t.length ≤ 15000 → sanitizePageText t = t) ∧
    (∀ t : List Char, 15000 < t.length →
      sanitizePageText t = t.take 15000 ++ pageTruncMarker) ∧
    (∀ t : List Char, ∃ rest, sanitizePageText t = t.take 15000 ++ rest) ∧
    (∀ c : List Char, c.length ≤ 100000 → capCombined c = c) ∧
    (∀ c : List Char, 100000 < c.length →
      capCombined c = c.take 100000 ++ overallTruncMarker) ∧
    (∀ c : List Char, ∃ rest, capCombined c = c.take 100000 ++ rest) := by
  refine ⟨?_, ?_, ?_, ?_, ?_, ?_, ?_, ?_, ?_⟩
  · simp [geminiAnalyzePrompt, buildCombinedText, foldl_pageSections]
  · simp [ollamaAnalyzePrompt, buildCombinedText, foldl_pageSections]
  · simp [azureUserPrompt, buildCombinedText, foldl_pageSections]
  · intro t ht
    simp [sanitizePageText, Nat.not_lt.mpr ht]
  · intro t ht
    simp [sanitizePageText, ht]
  · intro t
    by_cases ht : 15000 < t.length
    · exact ⟨pageTruncMarker, by simp [sanitizePageText, ht]⟩
    · refine ⟨[], ?_⟩
      rw [List.take_of_length_le (Nat.not_lt.mp ht), List.append_nil]
      simp [sanitizePageText, ht]
  · intro c hc
    simp [capCombined, Nat.not_lt.mpr hc]
  · intro c hc
    simp [capCombined, hc]
  · intro c
    by_cases hc : 100000 < c.length
    · exact ⟨overallTruncMarker, by simp [capCombined, hc]⟩
    · refine ⟨[], ?_⟩
      rw [List.take_of_length_le (Nat.not_lt.mp hc), List.append_nil]
      simp [capCombined, hc]

/-- C8 witness: the truncation clauses applied at concrete lengths — a
3-character page text is left alone by the per-page cut. -/
theorem prompt_truncation_witness :
    sanitizePageText "abc".toList = "abc".toList ∧
    capCombined "abc".toList = "abc".toList :=
  ⟨(prompt_truncation "f.pdf" []).2.2.2.1 "abc".toList (by decide),
   (prompt_truncation "f.pdf" []).2.2.2.2.2.2.1 "abc".toList (by decide)⟩

/-! ## Page-range selector

`parsePageRangeString` (`src/services/pdfParser.ts`, lines 5–55): an empty
or whitespace-only input selects all pages `1..maxPage`; otherwise the
input splits on commas, each trimmed non-empty token is a single page
(`parseInt`) or a `start-end` pair, every page is validated against
`[1, maxPage]`, pages collect into an insertion-ordered set, and the set is
returned sorted ascending; any invalid token throws, and a non-empty input
producing no pages throws the dedicated `No valid pages` error.  Errors are
`Except.error` values carrying the message text as characters. -/

/-- Insertion into the `Set<number>` of collected pages: append if new
(JavaScript sets preserve insertion order). -/
def insertPage (x : Int) (acc : List Int) : List Int :=
  if x ∈ acc then acc else acc ++ [x]

/-- The loop `for (let i = start; i <= end; i++) pageNumbers.add(i)`. -/
def addRange (s e : Int) (acc : List Int) : List Int :=
  (List.range (e + 1 - s).toNat).foldl (fun a i => insertPage (s + i) a) acc

/-- Error message for a range token that does not split into exactly two
parts. -/
def msgBadRangeFormat (t : List Char) : List Char :=
  "Invalid range format: \"".toList ++ t ++ "\". Expected format like \"start-end\".".toList

/-- Error message for a range token whose endpoints are not numbers. -/
def msgRangeNaN (t : List Char) : List Char :=
  "Invalid page numbers in range: \"".toList ++ t ++ "\". Pages must be numbers.".toList

/-- Error message for a range token out of bounds or inverted. -/
def msgRangeOutOfBounds (t : List Char) (maxPage : Nat) : List Char :=
  "Invalid page range: \"".toList ++ t ++ "\". Ensure pages are within 1-".toList ++
    (toString maxPage).toList ++ " and start <= end.".toList

/-- Error message for a single token that is not a number. -/
def msgPageNaN (t : List Char) : List Char :=
  "Invalid page number: \"".toList ++ t ++ "\". Pages must be numbers.".toList

/-- Error message for a single page out of bounds (it names the parsed
number, not the raw token). -/
def msgPageOutOfBounds (p : Int) (maxPage : Nat) : List Char :=
  "Invalid page number: ".toList ++ (toString p).toList ++ ". Page must be within 1-".toList ++
    (toString maxPage).toList ++ ".".toList

/-- Error message when a non-empty input yields no pages at all. -/
def msgNoValidPages (s : List Char) : List Char :=
  "No valid pages found in the provided range string: \"".toList ++ s ++ "\".".toList

/-- Processing of one trimmed, non-empty token: the `start-end` branch when
the token contains a hyphen, the single-page branch otherwise. -/
def processToken (maxPage : Nat) (t : List Char) (acc : List Int) :
    Except (List Char) (List Int) :=
  if t.contains '-' then
    match jsSplitOn '-' t with
    | [a, b] =>
      match jsParseInt a, jsParseInt b with
      | some s, some e =>
        if s < 1 ∨ (maxPage : Int) < e ∨ e < s then .error (msgRangeOutOfBounds t maxPage)
        else .ok (addRange s e acc)
      | _, _ => .error (msgRangeNaN t)
    | _ => .error (msgBadRangeFormat t)
  else
    match jsParseInt t with
    | none => .error (msgPageNaN t)
    | some p =>
      if p < 1 ∨ (maxPage : Int) < p then .error (msgPageOutOfBounds p maxPage)
      else .ok (insertPage p acc)

/-- The `for (const part of parts)` loop: trim each part, skip empty parts,
process the rest, aborting on the first error. -/
def processParts (maxPage : Nat) : List (List Char) → List Int →
    Except (List Char) (List Int)
  | [], acc => .ok acc
  | p :: ps, acc =>
    let t := jsTrim p
    if t.isEmpty then processParts maxPage ps acc
    else
      match processToken maxPage t acc with
      | .error e => .error e
      | .ok acc2 => processParts maxPage ps acc2

/-- The page list for an empty input: all pages `1..maxPage`
(`Array.from(\x7b length: maxPage \x7d, (_, i) => i + 1)`). -/
def allPages (maxPage : Nat) : List Int :=
  (List.range maxPage).map (fun i => Int.ofNat i + 1)

/-- `parsePageRangeString` on characters. -/
def parsePagesCore (s : List Char) (maxPage : Nat) : Except (List Char) (List Int) :=
  if (jsTrim s).isEmpty then .ok (allPages maxPage)
  else
    match processParts maxPage (jsSplitOn ',' s) [] with
    | .error e => .error e
    | .ok acc =>
      if acc.isEmpty then .error (msgNoValidPages s)
      else .ok (List.insertionSort (· ≤ ·) acc)

/-- `parsePageRangeString` on machine strings. -/
def parsePageRangeString (s : String) (maxPage : Nat) : Except String (List Int) :=
  match parsePagesCore s.toList maxPage with
  | .error e => .error (String.mk e)
  | .ok l => .ok l

theorem mem_insertPage {y x : Int} {acc : List Int} (h : y ∈ insertPage x acc) :
    y ∈ acc ∨ y = x := by
  unfold insertPage at h
  split at h
  · exact Or.inl h
  · rcases List.mem_append.mp h with h1 | h1
    · exact Or.inl h1
    · exact Or.inr (List.mem_singleton.mp h1)

theorem insertPage_nodup {x : Int} {acc : List Int} (h : acc.Nodup) :
    (insertPage x acc).Nodup := by
  unfold insertPage
  split
  · exact h
  · next hx =>
    refine List.Nodup.append h (List.nodup_singleton x) ?_
    intro y hy hy2
    rw [List.mem_singleton] at hy2
    subst hy2
    exact hx hy

theorem foldl_insertPage_mem {lo : Int} {idxs : List Nat} {acc : List Int} {y : Int}
    (h : y ∈ idxs.foldl (fun a i => insertPage (lo + i) a) acc) :
    y ∈ acc ∨ ∃ i ∈ idxs, y = lo + i := by
  induction idxs generalizing acc with
  | nil => exact Or.inl h
  | cons i is ih =>
    rcases ih h with h1 | h1
    · rcases mem_insertPage h1 with h2 | h2
      · exact Or.inl h2
      · exact Or.inr ⟨i, by simp, h2⟩
    · obtain ⟨j, hj, hy⟩ := h1
      exact Or.inr ⟨j, by simp [hj], hy⟩

theorem foldl_insertPage_nodup {lo : Int} {idxs : List Nat} {acc : List Int}
    (h : acc.Nodup) : (idxs.foldl (fun a i => insertPage (lo + i) a) acc).Nodup := by
  induction idxs generalizing acc with
  | nil => exact h
  | cons i is ih => exact ih (insertPage_nodup h)

theorem mem_addRange {s e y : Int} {acc : List Int} (h : y ∈ addRange s e acc) :
    y ∈ acc ∨ (s ≤ y ∧ y ≤ e) := by
  rcases foldl_insertPage_mem h with h1 | h1
  · exact Or.inl h1
  · obtain ⟨i, hi, rfl⟩ := h1
    rw [List.mem_range] at hi
    right
    omega

theorem addRange_nodup {s e : Int} {acc : List Int} (h : acc.Nodup) :
    (addRange s e acc).Nodup :=
  foldl_insertPage_nodup h

theorem processToken_ok_mem {maxPage : Nat} {t : List Char} {acc acc2 : List Int}
    (h : processToken maxPage t acc = .ok acc2) {y : Int} (hy : y ∈ acc2) :
    y ∈ acc ∨ (1 ≤ y ∧ y ≤ (maxPage : Int)) := by
  unfold processToken at h
  split at h
  · split at h
    · split at h
      · split at h
        · exact absurd h (by simp)
        · next hbnd =>
          cases h
          rcases mem_addRange hy with h1 | h1
          · exact Or.inl h1
          · right
            push_neg at hbnd
            omega
      · exact absurd h (by simp)
    · exact absurd h (by simp)
  · split at h
    · exact absurd h (by simp)
    · split at h
      · exact absurd h (by simp)
      · next p _ hbnd =>
        cases h
        rcases mem_insertPage hy with h1 | h1
        · exact Or.inl h1
        · right
          push_neg at hbnd
          omega

theorem processToken_ok_nodup {maxPage : Nat} {t : List Char} {acc acc2 : List Int}
    (h : processToken maxPage t acc = .ok acc2) (hn : acc.Nodup) : acc2.Nodup := by
  unfold processToken at h
  split at h
  · split at h
    · split at h
      · split at h
        · exact absurd h (by simp)
        · cases h
          exact addRange_nodup hn
      · exact absurd h (by simp)
    · exact absurd h (by simp)
  · split at h
    · exact absurd h (by simp)
    · split at h
      · exact absurd h (by simp)
      · cases h
        exact insertPage_nodup hn

theorem processParts_ok_props {maxPage : Nat} :
    ∀ (parts : List (List Char)) (acc acc2 : List Int),
    processParts maxPage parts acc = .ok acc2 →
    (∀ y ∈ acc, 1 ≤ y ∧ y ≤ (maxPage : Int)) → acc.Nodup →
    (∀ y ∈ acc2, 1 ≤ y ∧ y ≤ (maxPage : Int)) ∧ acc2.Nodup := by
  intro parts
  induction parts with
  | nil =>
    intro acc acc2 h hb hn
    simp only [processParts] at h
    cases h
    exact ⟨hb, hn⟩
  | cons p ps ih =>
    intro acc acc2 h hb hn
    simp only [processParts] at h
    split at h
    · exact ih acc acc2 h hb hn
    · split at h
      · exact absurd h (by simp)
      · next mid hmid =>
        refine ih mid acc2 h ?_ (processToken_ok_nodup hmid hn)
        intro y hy
        rcases processToken_ok_mem hmid hy with h1 | h1
        · exact hb y h1
        · exact h1

theorem allPages_sorted (maxPage : Nat) : (allPages maxPage).Sorted (· < ·) := by
  unfold allPages
  rw [List.Sorted, List.pairwise_map]
  refine (List.pairwise_lt_range maxPage).imp ?_
  intro a b hab
  simp only [Int.ofNat_eq_natCast]
  omega

theorem allPages_bounds (maxPage : Nat) :
    ∀ x ∈ allPages maxPage, 1 ≤ x ∧ x ≤ (maxPage : Int) := by
  intro x hx
  simp only [allPages, List.mem_map, List.mem_range] at hx
  obtain ⟨i, hi, rfl⟩ := hx
  simp only [Int.ofNat_eq_natCast]
  omega

theorem parsePagesCore_ok_props (s : List Char) (maxPage : Nat) (l : List Int)
    (h : parsePagesCore s maxPage = .ok l) :
    l.Sorted (· < ·) ∧ (∀ x ∈ l, 1 ≤ x ∧ x ≤ (maxPage : Int)) ∧ (l = [] → maxPage = 0) := by
  unfold parsePagesCore at h
  split at h
  · cases h
    refine ⟨allPages_sorted maxPage, allPages_bounds maxPage, ?_⟩
    intro he
    have hlen := congrArg List.length he
    simpa [allPages] using hlen
  · split at h
    · exact absurd h (by simp)
    · next acc hacc =>
      split at h
      · exact absurd h (by simp)
      · next hne =>
        cases h
        obtain ⟨hb, hn⟩ := processParts_ok_props _ _ _ hacc (by simp) List.nodup_nil
        have hperm := List.perm_insertionSort (· ≤ ·) acc
        have hsortedle := List.sorted_insertionSort (· ≤ ·) acc
        have hnd : (List.insertionSort (· ≤ ·) acc).Nodup := hperm.nodup_iff.mpr hn
        refine ⟨hsortedle.lt_of_le hnd, ?_, ?_⟩
        · intro x hx
          exact hb x (hperm.mem_iff.mp hx)
        · intro he
          exfalso
          have h0 : acc = [] := by
            have hx := hperm
            rw [he] at hx
            exact (List.Perm.nil_eq hx).symm
          rw [h0] at hne
          simp at hne

/-- C5: an empty or whitespace-only page-range input yields exactly
`[1, 2, ..., maxPage]`; every successful parse yields a strictly
ascending, duplicate-free list of pages within `[1, maxPage]`; and
parsing `1,3,5-7` with `maxPage = 10` yields `[1, 3, 5, 6, 7]`. -/
theorem page_range_parse_normal_form (s : String) (maxPage : Nat) :
    ((jsTrim s.toList).isEmpty = true →
      parsePageRangeString s maxPage = .ok (allPages maxPage)) ∧
    (∀ l, parsePageRangeString s maxPage = .ok l →
      l.Sorted (· < ·) ∧ l.Nodup ∧ ∀ x ∈ l, 1 ≤ x ∧ x ≤ (maxPage : Int)) ∧
    parsePageRangeString "1,3,5-7" 10 = .ok [1, 3, 5, 6, 7] := by
  refine ⟨?_, ?_, by decide⟩
  · intro he
    unfold parsePageRangeString parsePagesCore
    rw [if_pos he]
  · intro l hl
    unfold parsePageRangeString at hl
    split at hl
    · exact absurd hl (by simp)
    · next l0 hcore =>
      cases hl
      obtain ⟨hsort, hbounds, _⟩ := parsePagesCore_ok_props _ _ _ hcore
      exact ⟨hsort, hsort.nodup, hbounds⟩

/-- C5 witness: the two quantified clauses applied at concrete inputs —
the empty string over a 4-page document, and the example range. -/
theorem page_range_parse_normal_form_witness :
    parsePageRangeString "" 4 = .ok (allPages 4) ∧
    ([1, 3, 5, 6, 7] : List Int).Sorted (· < ·) :=
  ⟨(page_range_parse_normal_form "" 4).1 (by decide),
   ((page_range_parse_normal_form "1,3,5-7" 10).2.1 [1, 3, 5, 6, 7]
     (page_range_parse_normal_form "1,3,5-7" 10).2.2).1⟩

/-- A trimmed, non-empty token on which `processToken` throws (the
outcome does not depend on the pages already collected). -/
def tokenFails (maxPage : Nat) (t : List Char) : Bool :=
  match processToken maxPage t [] with
  | .error _ => true
  | .ok _ => false

theorem processToken_error_indep {maxPage : Nat} {t : List Char} {acc : List Int}
    {e : List Char} :
    processToken maxPage t acc = .error e ↔ processToken maxPage t [] = .error e := by
  unfold processToken
  split
  · split
    · split
      · split <;> simp
      · simp
    · simp
  · split
    · simp
    · split <;> simp

theorem processToken_err_of_fails {maxPage : Nat} {t : List Char} (acc : List Int)
    (h : tokenFails maxPage t = true) :
    ∃ e, processToken maxPage t acc = .error e := by
  unfold tokenFails at h
  split at h
  · next e he => exact ⟨e, processToken_error_indep.mpr he⟩
  · simp at h

theorem tokenFails_of_err {maxPage : Nat} {t : List Char} {acc : List Int} {e : List Char}
    (h : processToken maxPage t acc = .error e) : tokenFails maxPage t = true := by
  unfold tokenFails
  rw [processToken_error_indep.mp h]

theorem processToken_error_named {maxPage : Nat} {t : List Char} {acc : List Int}
    {e : List Char} (h : processToken maxPage t acc = .error e) :
    (∃ pre post, e = pre ++ (t ++ post)) ∨
    (∃ p pre post, jsParseInt t = some p ∧ e = pre ++ ((toString p).toList ++ post)) := by
  unfold processToken at h
  split at h
  · split at h
    · split at h
      · split at h
        · cases h
          exact Or.inl ⟨"Invalid page range: \"".toList,
            "\". Ensure pages are within 1-".toList ++ (toString maxPage).toList ++
              " and start <= end.".toList,
            by simp [msgRangeOutOfBounds]⟩
        · exact absurd h (by simp)
      · cases h
        exact Or.inl ⟨"Invalid page numbers in range: \"".toList,
          "\". Pages must be numbers.".toList, by simp [msgRangeNaN]⟩
    · cases h
      exact Or.inl ⟨"Invalid range format: \"".toList,
        "\". Expected format like \"start-end\".".toList, by simp [msgBadRangeFormat]⟩
  · split at h
    · cases h
      exact Or.inl ⟨"Invalid page number: \"".toList,
        "\". Pages must be numbers.".toList, by simp [msgPageNaN]⟩
    · next p hp =>
      split at h
      · cases h
        exact Or.inr ⟨p, "Invalid page number: ".toList,
          ". Page must be within 1-".toList ++ (toString maxPage).toList ++ ".".toList,
          hp, by simp [msgPageOutOfBounds]⟩
      · exact absurd h (by simp)

theorem processParts_error_mem {maxPage : Nat} :
    ∀ (parts : List (List Char)) (acc : List Int) (e : List Char),
    processParts maxPage parts acc = .error e →
    ∃ t, t ∈ parts.map jsTrim ∧ t.isEmpty = false ∧
      ∃ acc2, processToken maxPage t acc2 = .error e := by
  intro parts
  induction parts with
  | nil =>
    intro acc e h
    simp [processParts] at h
  | cons p ps ih =>
    intro acc e h
    simp only [processParts] at h
    split at h
    · obtain ⟨t, ht, hne, hacc⟩ := ih _ _ h
      exact ⟨t, by simp only [List.map_cons, List.mem_cons]; exact Or.inr ht, hne, hacc⟩
    · next hemp =>
      split at h
      · next e2 he2 =>
        cases h
        exact ⟨jsTrim p, by simp, by simpa using hemp, acc, he2⟩
      · obtain ⟨t, ht, hne, hacc⟩ := ih _ _ h
        exact ⟨t, by simp only [List.map_cons, List.mem_cons]; exact Or.inr ht, hne, hacc⟩

theorem processParts_err_of_any {maxPage : Nat} :
    ∀ (parts : List (List Char)) (acc : List Int),
    (parts.any (fun p => !(jsTrim p).isEmpty && tokenFails maxPage (jsTrim p))) = true →
    ∃ e, processParts maxPage parts acc = .error e := by
  intro parts
  induction parts with
  | nil =>
    intro acc h
    simp at h
  | cons p ps ih =>
    intro acc h
    simp only [List.any_cons, Bool.or_eq_true] at h
    simp only [processParts]
    by_cases hemp : (jsTrim p).isEmpty = true
    · rw [if_pos hemp]
      apply ih
      rcases h with h | h
      · rw [hemp] at h
        simp at h
      · exact h
    · rw [if_neg hemp]
      by_cases hfail : tokenFails maxPage (jsTrim p) = true
      · obtain ⟨e, he⟩ := processToken_err_of_fails acc hfail
        rw [he]
        exact ⟨e, rfl⟩
      · have hok : ∃ acc2, processToken maxPage (jsTrim p) acc = .ok acc2 := by
          cases hpt : processToken maxPage (jsTrim p) acc with
          | error e2 => exact absurd (tokenFails_of_err hpt) hfail
          | ok a2 => exact ⟨a2, rfl⟩
        obtain ⟨acc2, hacc2⟩ := hok
        rw [hacc2]
        apply ih
        rcases h with h | h
        · rw [Bool.and_eq_true] at h
          exact absurd h.2 hfail
        · exact h

theorem processParts_all_empty {maxPage : Nat} :
    ∀ (parts : List (List Char)) (acc : List Int),
    (∀ p ∈ parts, (jsTrim p).isEmpty = true) →
    processParts maxPage parts acc = .ok acc := by
  intro parts
  induction parts with
  | nil => intro acc _; rfl
  | cons p ps ih =>
    intro acc h
    simp only [processParts]
    rw [if_pos (h p (by simp))]
    exact ih acc (fun q hq => h q (by simp [hq]))

theorem jsTrim_eq_nil_of_all {l : List Char} (h : ∀ c ∈ l, isWsChar c = true) :
    jsTrim l = [] := by
  unfold jsTrim
  rw [List.dropWhile_eq_nil_iff.mpr h]
  simp

theorem jsTrim_eq_nil_imp {l : List Char} (h : jsTrim l = []) :
    ∀ c ∈ l, isWsChar c = true := by
  unfold jsTrim at h
  rw [List.reverse_eq_nil_iff, List.dropWhile_eq_nil_iff] at h
  intro c hc
  rcases List.mem_append.mp ((List.takeWhile_append_dropWhile (p := isWsChar) (l := l)) ▸ hc)
    with h1 | h1
  · exact List.mem_takeWhile_imp h1
  · exact h c (List.mem_reverse.mpr h1)

theorem mem_of_mem_jsSplitOn {sep : Char} :
    ∀ {l p : List Char}, p ∈ jsSplitOn sep l → ∀ {c : Char}, c ∈ p → c ∈ l := by
  intro l
  induction l with
  | nil =>
    intro p hp c hc
    simp [jsSplitOn] at hp
    subst hp
    simp at hc
  | cons x xs ih =>
    intro p hp c hc
    simp only [jsSplitOn] at hp
    split at hp
    · simp at hp
      subst hp
      simp at hc
    · next q qs hsplit =>
      split at hp
      · rcases List.mem_cons.mp hp with h1 | h1
        · subst h1
          simp at hc
        · exact List.mem_cons_of_mem _ (ih (by rw [hsplit]; exact h1) hc)
      · rcases List.mem_cons.mp hp with h1 | h1
        · subst h1
          rcases List.mem_cons.mp hc with h2 | h2
          · subst h2
            exact List.mem_cons_self _ _
          · exact List.mem_cons_of_mem _
              (ih (by rw [hsplit]; exact List.mem_cons_self q qs) h2)
        · exact List.mem_cons_of_mem _
            (ih (by rw [hsplit]; exact List.mem_cons_of_mem _ h1) hc)

/-- C6. Error behaviour of the page-range parser, as the code actually has
it. (1) If any comma-separated part trims to a non-empty token that
`processToken` rejects, the whole parse throws. (2) If the input is
non-blank but every part trims to the empty token, the parse throws the
no-valid-pages error naming the raw input. (3) Every error is either the
no-valid-pages message or is blamed on some failing trimmed token, and the
message embeds either that raw token verbatim or (for a single page out of
bounds) the parsed number instead. Note that a trailing-garbage token such
as "5x" is NOT an error: `parseInt` accepts its digit prefix (see
`page_range_malformed_token_counterexample`). -/
theorem page_range_parse_errors (s : String) (maxPage : Nat) :
    ((jsSplitOn ',' s.toList).any
        (fun p => !(jsTrim p).isEmpty && tokenFails maxPage (jsTrim p)) = true →
      ∃ e, parsePageRangeString s maxPage = .error e) ∧
    ((jsTrim s.toList).isEmpty = false →
      (∀ p ∈ jsSplitOn ',' s.toList, (jsTrim p).isEmpty = true) →
      parsePageRangeString s maxPage = .error (String.mk (msgNoValidPages s.toList))) ∧
    (∀ e, parsePagesCore s.toList maxPage = .error e →
      e = msgNoValidPages s.toList ∨
      ∃ t, t ∈ (jsSplitOn ',' s.toList).map jsTrim ∧ t.isEmpty = false ∧
        tokenFails maxPage t = true ∧
        ((∃ pre post, e = pre ++ (t ++ post)) ∨
         (∃ p pre post, jsParseInt t = some p ∧
            e = pre ++ ((toString p).toList ++ post)))) := by
  refine ⟨?_, ?_, ?_⟩
  · intro hany
    obtain ⟨p, hpmem, hprop⟩ := List.any_eq_true.mp hany
    rw [Bool.and_eq_true] at hprop
    obtain ⟨hne', _⟩ := hprop
    have hpne : jsTrim p ≠ [] := by
      intro hnil
      simp [hnil] at hne'
    have hex : ∃ c ∈ p, isWsChar c = false := by
      by_contra hcon
      push_neg at hcon
      exact hpne (jsTrim_eq_nil_of_all (fun c hc => by
        have h2 := hcon c hc
        revert h2
        cases isWsChar c <;> simp))
    obtain ⟨c, hcp, hcw⟩ := hex
    have hcs : c ∈ s.toList := mem_of_mem_jsSplitOn hpmem hcp
    have hsne : ¬((jsTrim s.toList).isEmpty = true) := by
      intro he
      have hall := jsTrim_eq_nil_imp (List.isEmpty_iff.mp he)
      simp [hall c hcs] at hcw
    obtain ⟨e, he⟩ := processParts_err_of_any (jsSplitOn ',' s.toList) [] hany
    refine ⟨String.mk e, ?_⟩
    unfold parsePageRangeString parsePagesCore
    rw [if_neg hsne, he]
  · intro hne hall
    unfold parsePageRangeString parsePagesCore
    rw [if_neg (by intro hc; rw [hc] at hne; exact Bool.noConfusion hne),
      processParts_all_empty _ _ hall]
    rfl
  · intro e he
    unfold parsePagesCore at he
    split at he
    · exact absurd he (by simp)
    · split at he
      · next e2 he2 =>
        cases he
        obtain ⟨t, htm, htne, acc2, hacc⟩ := processParts_error_mem _ _ _ he2
        exact Or.inr ⟨t, htm, htne, tokenFails_of_err hacc, processToken_error_named hacc⟩
      · split at he
        · cases he
          exact Or.inl rfl
        · exact absurd he (by simp)

theorem page_range_parse_errors_witness :
    parsePageRangeString " , " 3 = .error (String.mk (msgNoValidPages " , ".toList)) :=
  (page_range_parse_errors " , " 3).2.1 (by decide) (by decide)

/-- C6 counterexample to the claim that a token with trailing garbage is
rejected: the token "5x" parses as page 5 because `parseInt` consumes the
longest digit prefix and ignores the rest. -/
theorem page_range_malformed_token_counterexample :
    parsePageRangeString "5x" 10 = .ok [5] := by decide

/-! ## Canonical rendering of a page list

The spec speaks of re-parsing "the normalized output s canonical string
form": the page list printed base-10, joined with commas.  `natChars` is
the decimal numeral of a natural number, most significant digit first. -/

/-- Decimal digits of a natural number. -/
def natChars (n : Nat) : List Char :=
  if n < 10 then [Char.ofNat (48 + n)]
  else natChars (n / 10) ++ [Char.ofNat (48 + n % 10)]
decreasing_by simp_wf; omega

/-- The canonical comma-separated rendering of a page list. -/
def renderPagesCore : List Int → List Char
  | [] => []
  | [x] => natChars x.toNat
  | x :: y :: ys => natChars x.toNat ++ ',' :: renderPagesCore (y :: ys)

/-- The canonical comma-separated rendering as a machine string. -/
def renderPages (l : List Int) : String :=
  String.mk (renderPagesCore l)

theorem isDigit_ofNat_digit {d : Nat} (h : d < 10) :
    (Char.ofNat (48 + d)).isDigit = true := by
  interval_cases d <;> decide

theorem digitVal_ofNat_digit {d : Nat} (h : d < 10) :
    (Char.ofNat (48 + d)).toNat - '0'.toNat = d := by
  interval_cases d <;> decide

theorem natChars_ne_nil (n : Nat) : natChars n ≠ [] := by
  rw [natChars]
  split
  · simp
  · simp

theorem natChars_digits (n : Nat) : ∀ c ∈ natChars n, c.isDigit = true := by
  induction n using Nat.strong_induction_on with
  | _ n ih =>
    rw [natChars]
    split
    · next h =>
      intro c hc
      rw [List.mem_singleton] at hc
      subst hc
      exact isDigit_ofNat_digit h
    · next h =>
      intro c hc
      rcases List.mem_append.mp hc with h1 | h1
      · exact ih (n / 10) (Nat.div_lt_self (by omega) (by omega)) c h1
      · rw [List.mem_singleton] at h1
        subst h1
        exact isDigit_ofNat_digit (Nat.mod_lt _ (by omega))

theorem digitsVal_append_last (ds : List Char) (c : Char) :
    digitsVal (ds ++ [c]) = 10 * digitsVal ds + (c.toNat - '0'.toNat) := by
  simp [digitsVal, List.foldl_append]

theorem digitsVal_natChars (n : Nat) : digitsVal (natChars n) = n := by
  induction n using Nat.strong_induction_on with
  | _ n ih =>
    rw [natChars]
    split
    · next h =>
      simp only [digitsVal, List.foldl_cons, List.foldl_nil]
      rw [digitVal_ofNat_digit h]
      omega
    · next h =>
      rw [digitsVal_append_last, ih (n / 10) (Nat.div_lt_self (by omega) (by omega)),
        digitVal_ofNat_digit (Nat.mod_lt _ (by omega))]
      omega

theorem isDigit_not_ws {c : Char} (h : c.isDigit = true) : isWsChar c = false := by
  by_contra hcon
  have hw : isWsChar c = true := by
    revert hcon
    cases isWsChar c <;> simp
  unfold isWsChar at hw
  simp only [Bool.or_eq_true, beq_iff_eq] at hw
  rcases hw with ((((h1 | h1) | h1) | h1) | h1) | h1 <;>
    (subst h1; exact absurd h (by decide))

theorem isDigit_ne_sep {c : Char} (h : c.isDigit = true) :
    c ≠ ',' ∧ c ≠ '-' ∧ c ≠ '+' := by
  refine ⟨?_, ?_, ?_⟩ <;> (rintro rfl; exact absurd h (by decide))

theorem jsTrim_eq_self_of_no_ws {l : List Char} (h : ∀ c ∈ l, isWsChar c = false) :
    jsTrim l = l := by
  unfold jsTrim
  have h1 : l.dropWhile isWsChar = l := by
    cases l with
    | nil => rfl
    | cons x xs =>
      rw [List.dropWhile_cons, if_neg (by simp [h x (by simp)])]
  rw [h1]
  have h2 : l.reverse.dropWhile isWsChar = l.reverse := by
    cases hr : l.reverse with
    | nil => rfl
    | cons x xs =>
      have hx : x ∈ l := by
        rw [← List.mem_reverse, hr]
        simp
      rw [List.dropWhile_cons, if_neg (by simp [h x hx])]
  rw [h2, List.reverse_reverse]

theorem dash_not_contained_of_digits {t : List Char} (h : ∀ c ∈ t, c.isDigit = true) :
    ¬(t.contains '-' = true) := by
  intro hcon
  have hm : '-' ∈ t := by simpa using hcon
  exact absurd (h _ hm) (by decide)

theorem takeWhile_eq_self_of_all {p : Char → Bool} :
    ∀ {l : List Char}, (∀ c ∈ l, p c = true) → l.takeWhile p = l := by
  intro l
  induction l with
  | nil => intro _; rfl
  | cons x xs ih =>
    intro h
    rw [List.takeWhile_cons, if_pos (h x (by simp)), ih (fun c hc => h c (by simp [hc]))]

theorem jsParseInt_digits {l : List Char} (hne : l ≠ []) (hd : ∀ c ∈ l, c.isDigit = true) :
    jsParseInt l = some ((digitsVal l : Nat) : Int) := by
  cases l with
  | nil => exact absurd rfl hne
  | cons c cs =>
    have hc := hd c (by simp)
    have hbody : (c :: cs).dropWhile isWsChar = c :: cs := by
      rw [List.dropWhile_cons, if_neg (by simp [isDigit_not_ws hc])]
    have hds : (c :: cs).takeWhile Char.isDigit = c :: cs := takeWhile_eq_self_of_all hd
    have hcd : c ≠ '-' ∧ c ≠ '+' := ⟨(isDigit_ne_sep hc).2.1, (isDigit_ne_sep hc).2.2⟩
    simp only [jsParseInt, hbody]
    rw [if_neg hcd.1, if_neg hcd.2]
    simp only [hds]
    rw [if_neg (by simp)]
    simp

theorem jsSplitOn_ne_nil {sep : Char} : ∀ (l : List Char), jsSplitOn sep l ≠ [] := by
  intro l
  cases l with
  | nil => simp [jsSplitOn]
  | cons c cs =>
    simp only [jsSplitOn]
    split
    · simp
    · split <;> simp

theorem jsSplitOn_no_sep {sep : Char} :
    ∀ {l : List Char}, (∀ c ∈ l, c ≠ sep) → jsSplitOn sep l = [l] := by
  intro l
  induction l with
  | nil => intro _; rfl
  | cons x xs ih =>
    intro h
    have hx : (x == sep) = false := by simp [h x (by simp)]
    simp [jsSplitOn, ih (fun c hc => h c (by simp [hc])), hx]

theorem jsSplitOn_append_sep {sep : Char} :
    ∀ {a : List Char} (b : List Char), (∀ c ∈ a, c ≠ sep) →
    jsSplitOn sep (a ++ sep :: b) = a :: jsSplitOn sep b := by
  intro a
  induction a with
  | nil =>
    intro b _
    simp only [List.nil_append, jsSplitOn]
    cases hs : jsSplitOn sep b with
    | nil => exact absurd hs (jsSplitOn_ne_nil b)
    | cons q qs =>
      simp
  | cons x xs ih =>
    intro b h
    simp only [List.cons_append, jsSplitOn, List.append_eq]
    rw [ih b (fun c hc => h c (by simp [hc]))]
    have hx : (x == sep) = false := by simp [h x (by simp)]
    simp [hx]

theorem renderPagesCore_chars : ∀ (l : List Int), ∀ c ∈ renderPagesCore l,
    c.isDigit = true ∨ c = ',' := by
  intro l
  induction l with
  | nil =>
    intro c hc
    simp [renderPagesCore] at hc
  | cons x xs ih =>
    cases xs with
    | nil =>
      intro c hc
      simp only [renderPagesCore] at hc
      exact Or.inl (natChars_digits _ c hc)
    | cons y ys =>
      intro c hc
      simp only [renderPagesCore] at hc
      rcases List.mem_append.mp hc with h1 | h1
      · exact Or.inl (natChars_digits _ c h1)
      · rcases List.mem_cons.mp h1 with h2 | h2
        · exact Or.inr h2
        · exact ih c h2

theorem jsSplitOn_renderPagesCore :
    ∀ (l : List Int), l ≠ [] →
    jsSplitOn ',' (renderPagesCore l) = l.map (fun y => natChars y.toNat) := by
  intro l
  induction l with
  | nil => intro h; exact absurd rfl h
  | cons x xs ih =>
    intro _
    cases xs with
    | nil =>
      simp only [renderPagesCore, List.map_cons, List.map_nil]
      exact jsSplitOn_no_sep (fun c hc => (isDigit_ne_sep (natChars_digits _ c hc)).1)
    | cons y ys =>
      simp only [renderPagesCore, List.map_cons]
      rw [jsSplitOn_append_sep (renderPagesCore (y :: ys))
        (fun c hc => (isDigit_ne_sep (natChars_digits _ c hc)).1)]
      rw [ih (by simp)]
      simp

theorem processToken_natChars {maxPage : Nat} {x : Int} (acc : List Int)
    (h1 : 1 ≤ x) (h2 : x ≤ (maxPage : Int)) :
    processToken maxPage (natChars x.toNat) acc = .ok (insertPage x acc) := by
  have hx : ((x.toNat : Nat) : Int) = x := Int.toNat_of_nonneg (by omega)
  unfold processToken
  rw [if_neg (dash_not_contained_of_digits (natChars_digits x.toNat))]
  rw [jsParseInt_digits (natChars_ne_nil _) (natChars_digits _), digitsVal_natChars, hx]
  show (if x < 1 ∨ (maxPage : Int) < x then Except.error (msgPageOutOfBounds x maxPage)
    else Except.ok (insertPage x acc)) = Except.ok (insertPage x acc)
  rw [if_neg (by omega)]

theorem processParts_natChars {maxPage : Nat} :
    ∀ (rest acc : List Int),
    (∀ y ∈ rest, 1 ≤ y ∧ y ≤ (maxPage : Int)) → rest.Nodup →
    (∀ y ∈ rest, y ∉ acc) →
    processParts maxPage (rest.map (fun y => natChars y.toNat)) acc = .ok (acc ++ rest) := by
  intro rest
  induction rest with
  | nil =>
    intro acc _ _ _
    simp [processParts]
  | cons x xs ih =>
    intro acc hb hnd hdisj
    simp only [List.map_cons, processParts]
    have htrim : jsTrim (natChars x.toNat) = natChars x.toNat :=
      jsTrim_eq_self_of_no_ws (fun c hc => isDigit_not_ws (natChars_digits _ c hc))
    rw [htrim, if_neg (by rw [List.isEmpty_iff]; exact natChars_ne_nil _)]
    rw [processToken_natChars acc (hb x (by simp)).1 (hb x (by simp)).2]
    have hfresh : insertPage x acc = acc ++ [x] := by
      unfold insertPage
      rw [if_neg (hdisj x (by simp))]
    rw [hfresh]
    show processParts maxPage (List.map (fun y => natChars y.toNat) xs) (acc ++ [x]) =
      Except.ok (acc ++ x :: xs)
    rw [ih (acc ++ [x]) (fun y hy => hb y (by simp [hy])) (List.Nodup.of_cons hnd)
      (fun y hy => by
        intro hmem
        rcases List.mem_append.mp hmem with hm1 | hm1
        · exact hdisj y (by simp [hy]) hm1
        · rw [List.mem_singleton] at hm1
          subst hm1
          exact (List.nodup_cons.mp hnd).1 hy)]
    rw [List.append_assoc]
    rfl

/-- C7. Page-range parsing is idempotent: whenever a string parses
successfully to a page list, rendering that list back to its canonical
comma-separated decimal form and re-parsing it (with the same `maxPage`)
returns the very same list. -/
theorem page_range_parse_idempotent (s : String) (maxPage : Nat) (l : List Int)
    (h : parsePageRangeString s maxPage = .ok l) :
    parsePageRangeString (renderPages l) maxPage = .ok l := by
  have hcore : parsePagesCore s.toList maxPage = .ok l := by
    unfold parsePageRangeString at h
    split at h
    · exact absurd h (by simp)
    · next l0 hc =>
      cases h
      exact hc
  obtain ⟨hsort, hbounds, hnil⟩ := parsePagesCore_ok_props _ _ _ hcore
  cases l with
  | nil =>
    have h0 : maxPage = 0 := hnil rfl
    subst h0
    decide
  | cons x xs =>
    have hnd : (x :: xs).Nodup := hsort.nodup
    have hrender : parsePagesCore (renderPagesCore (x :: xs)) maxPage = .ok (x :: xs) := by
      unfold parsePagesCore
      have hnw : ∀ c ∈ renderPagesCore (x :: xs), isWsChar c = false := by
        intro c hc
        rcases renderPagesCore_chars _ c hc with h1 | h1
        · exact isDigit_not_ws h1
        · subst h1
          decide
      have hrne : renderPagesCore (x :: xs) ≠ [] := by
        cases xs with
        | nil => simp [renderPagesCore, natChars_ne_nil]
        | cons y ys => simp [renderPagesCore, natChars_ne_nil]
      rw [jsTrim_eq_self_of_no_ws hnw, if_neg (by rw [List.isEmpty_iff]; exact hrne)]
      rw [jsSplitOn_renderPagesCore _ (by simp)]
      rw [processParts_natChars _ [] hbounds hnd (by simp), List.nil_append]
      split
      · next e heq => exact absurd heq (by simp)
      · next acc heq =>
        injection heq with h2
        subst h2
        rw [if_neg (by simp)]
        rw [List.Sorted.insertionSort_eq (List.Pairwise.imp (fun h3 => le_of_lt h3) hsort)]
    unfold parsePageRangeString renderPages
    rw [show (String.mk (renderPagesCore (x :: xs))).toList = renderPagesCore (x :: xs)
      from rfl]
    rw [hrender]

theorem page_range_parse_idempotent_witness :
    parsePageRangeString (renderPages [2]) 3 = .ok [2] :=
  page_range_parse_idempotent "2" 3 [2] (by decide)
